import Mathlib

/-!
Verification of the HVH-PoSt circuit composer
(`src/storage-proofs/src/circuit/hvh_post.rs`).

The composer `hvh_post` is embedded shallowly: the bellman constraint
system is a record of allocated variables, public inputs and constraints,
mutated by explicit state passing; `Result<_, SynthesisError>` becomes an
explicit result type that also records Rust panics (`assert_eq!` failures)
and carries the state of the caller-owned constraint system at the point
the computation stopped.

The gadgets `sloth::decode`, `porc::porc` and `constraint::equal`, and the
substrate operations `AllocatedNum::alloc` / `inputize`, are not part of
the source tree being verified; they are modelled from the specification's
interface contracts (see the individual doc comments).

Field elements are an abstract type `Fr`; the semantic decode function of
the sloth delay cipher is an abstract parameter `slothFn` (its internal
algorithm is out of scope; only the shape of the constraints the gadget
adds and the value it returns matter here).
-/

section HvhPostModel

variable {Fr : Type}

/-- Decimal digit character, for rendering Rust `format!` round labels. -/
def digitChar (n : Nat) : Char := Char.ofNat (48 + n)

/-- Decimal digits of `n` (most significant first), with explicit fuel so
that the definition is structurally recursive and kernel-reducible. -/
def decDigitsAux : Nat → Nat → List Char
  | 0, _ => []
  | fuel + 1, n =>
    if n < 10 then [digitChar n]
    else decDigitsAux fuel (n / 10) ++ [digitChar (n % 10)]

/-- Decimal rendering of a natural number, as produced by Rust's
`format!("{}", n)` for `usize` round indices. -/
def natDec (n : Nat) : String := String.mk (decDigitsAux (n + 1) n)

/-- Namespace label of VDF verification round `i`:
`format!("vdf_verification_round_{}", i)` at hvh_post.rs line 61. -/
def vdfRoundLabel (i : Nat) : String := "vdf_verification_round_" ++ natDec i

/-- Namespace label of PoRC verification round `i`:
`format!("porc_verification_round_{}", i)` at hvh_post.rs line 89. -/
def porcRoundLabel (i : Nat) : String := "porc_verification_round_" ++ natDec i

/-- Hierarchical namespace path of VDF round `i`, rooted at the caller's
constraint system. -/
def vdfRoundPath (i : Nat) : List String := [vdfRoundLabel i]

/-- Hierarchical namespace path of PoRC round `i`. -/
def porcRoundPath (i : Nat) : List String := [porcRoundLabel i]

/-- The bellman synthesis error surfaced by this code: a witness value was
`None` when a concrete value was required by an allocation
(`SynthesisError::AssignmentMissing`). bellman has further variants, but
`AssignmentMissing` is the only one this code path produces. -/
inductive SynthesisError where
  | AssignmentMissing
deriving DecidableEq, Repr

/-- One allocated circuit variable: its hierarchical namespace path and its
concrete witness value (present, since concrete synthesis is modelled). -/
structure AllocVar (Fr : Type) where
  path : List String
  value : Fr
deriving DecidableEq, Repr

/-- Constraints recorded in the constraint system. `eq` is the equality
constraint of `constraint::equal` between two variable indices; `slothC`
is a constraint added by the sloth decode gadget (recording which key
variable and round count the invocation received); `porcC` is the
inclusion gadget's invocation record, carrying the per-round arguments it
was handed, unchanged; `gadget` is an internal inclusion constraint;
`inputC` is the equality constraint `inputize` adds between a variable and
the public input it exposes. -/
inductive Constr (Fr : Type) where
  | eq (path : List String) (a b : Nat)
  | slothC (path : List String) (keyVar : Nat) (rounds : Nat)
  | porcC (path : List String) (challenged_leafs : List (Option Fr))
      (commitments : List (Option Fr))
      (paths : List (List (Option (Fr × Bool))))
  | gadget (path : List String)
  | inputC (path : List String) (a : Nat)
deriving DecidableEq, Repr

/-- Namespace path of a constraint. -/
def Constr.cpath : Constr Fr → List String
  | .eq p _ _ => p
  | .slothC p _ _ => p
  | .porcC p _ _ _ => p
  | .gadget p => p
  | .inputC p _ => p

/-- The caller-owned constraint system: allocated variables (in allocation
order), public inputs (in inputization order) and constraints (in the
order they were added). -/
structure CS (Fr : Type) where
  vars : List (AllocVar Fr)
  inputs : List (List String × Fr)
  constraints : List (Constr Fr)
deriving DecidableEq, Repr

/-- A `sapling_crypto::circuit::num::AllocatedNum`: an allocated variable
index together with its (concrete-mode) value. -/
structure AllocatedNum (Fr : Type) where
  var : Nat
  value : Fr
deriving DecidableEq, Repr

/-- Modelled from the spec: `num::AllocatedNum::alloc` on a concrete
(non-shape-only) constraint system. The closure's value is demanded
first: an absent witness value surfaces `AssignmentMissing` and the
constraint system is not touched; a present value appends one variable. -/
def AllocatedNum.alloc (path : List String) (value : Option Fr) (cs : CS Fr) :
    Except SynthesisError (AllocatedNum Fr × CS Fr) :=
  match value with
  | none => .error .AssignmentMissing
  | some v =>
    .ok (⟨cs.vars.length, v⟩, { cs with vars := cs.vars ++ [⟨path, v⟩] })

/-- Modelled from the spec: `constraint::equal` (the equality-assertion
gadget, `src/storage-proofs/src/circuit/constraint.rs`, not under src/):
it enforces that two allocated values are identical by adding a single
equality constraint; it is infallible. -/
def constraint.equal (cs : CS Fr) (path : List String)
    (a b : AllocatedNum Fr) : CS Fr :=
  { cs with constraints := cs.constraints ++ [.eq path a.var b.var] }

/-- Modelled from the spec: `AllocatedNum::inputize` marks an allocated
value as a public input: it allocates a public input carrying the same
value and constrains the variable to equal it. With a concrete value at
hand it cannot fail. -/
def AllocatedNum.inputize (path : List String) (n : AllocatedNum Fr)
    (cs : CS Fr) : Except SynthesisError (CS Fr) :=
  .ok { cs with
        inputs := cs.inputs ++ [(path, n.value)],
        constraints := cs.constraints ++ [.inputC path n.var] }

/-- Modelled from the spec: `sloth::decode`
(`src/storage-proofs/src/circuit/sloth.rs`, not under src/), the
delay-function decode gadget. Given the shared key variable, one encoded
value `y` and the fixed round count, it allocates the decoded value
(computed by the abstract decode semantics `slothFn key y rounds`) and
adds `rounds` sequential constraints binding it to the key and the encoded
value; it fails with `AssignmentMissing` when the encoded witness value is
absent and a concrete value is needed. -/
def sloth.decode (slothFn : Fr → Fr → Nat → Fr) (path : List String)
    (key : AllocatedNum Fr) (y : Option Fr) (rounds : Nat) (cs : CS Fr) :
    Except SynthesisError (AllocatedNum Fr × CS Fr) :=
  match y with
  | none => .error .AssignmentMissing
  | some yv =>
    let d := slothFn key.value yv rounds
    .ok (⟨cs.vars.length, d⟩,
      { cs with
        vars := cs.vars ++ [⟨path, d⟩],
        constraints := cs.constraints ++
          List.replicate rounds (.slothC path key.var rounds) })

/-- Result of running a fragment of `synthesize`: the Rust computation
either panicked (an `assert_eq!` failed), returned
`Err(SynthesisError::...)`, or returned `Ok(())`. In every case the
caller-owned constraint system, as mutated up to that point, is carried
(Rust mutates `cs` through `&mut`; neither `?` nor `panic!` rolls its
state back). -/
inductive SynthResult (Fr : Type) where
  | panicked (cs : CS Fr)
  | failed (e : SynthesisError) (cs : CS Fr)
  | ok (cs : CS Fr)
deriving DecidableEq, Repr

/-- The constraint-system state carried by a synthesis result. -/
def SynthResult.state : SynthResult Fr → CS Fr
  | .panicked cs => cs
  | .failed _ cs => cs
  | .ok cs => cs

/-- `allSome l = some l'` exactly when every entry of `l` is present. -/
def allSome : List (Option α) → Option (List α)
  | [] => some []
  | none :: _ => none
  | some a :: rest => (allSome rest).map (a :: ·)

/-- Modelled from the spec: `porc::porc`
(`src/storage-proofs/src/circuit/porc.rs`, not under src/), the
storage-inclusion gadget. Per the spec's error-handling contract it treats
mismatched parallel witness arrays (leafs / commitments / paths) as a
programmer error and fails loudly and immediately, assertion-style, before
consuming the data; with matching lengths it allocates the challenged
leafs and the path elements, adds inclusion constraints binding each leaf
through its path to its paired commitment, and marks the commitments as
public inputs; an absent witness value when a concrete value is needed
surfaces `AssignmentMissing`. -/
def porc.porc (path : List String)
    (challenged_leafs commitments : List (Option Fr))
    (paths : List (List (Option (Fr × Bool)))) (cs : CS Fr) :
    SynthResult Fr :=
  if challenged_leafs.length = commitments.length ∧
      commitments.length = paths.length then
    match allSome challenged_leafs, allSome commitments,
        allSome (paths.map allSome) with
    | some ls, some cm, some ps =>
      .ok { cs with
            vars := cs.vars ++
              ls.map (fun v => ⟨path ++ ["challenged_leaf"], v⟩) ++
              ps.flatten.map (fun e => ⟨path ++ ["path_element"], e.1⟩),
            inputs := cs.inputs ++ cm.map (fun c => (path ++ ["commitment"], c)),
            constraints := cs.constraints ++
              (Constr.porcC path challenged_leafs commitments paths ::
                ps.flatten.map (fun _ => Constr.gadget (path ++ ["inclusion"]))) }
    | _, _, _ => .failed .AssignmentMissing cs
  else .panicked cs

/-- The VDF phase loop of `hvh_post` (hvh_post.rs lines 60-78): for each
`(y, x)` in `vdf_ys.zip(vdf_xs)` with running index `i`, inside namespace
`vdf_verification_round_i`: decode `y` with the shared key, allocate the
expected pre-image `x`, assert their equality, and inputize the decoded
value. The first error aborts the remaining rounds. -/
def vdfRoundsLoop (slothFn : Fr → Fr → Nat → Fr) (key : AllocatedNum Fr)
    (vdf_sloth_rounds : Nat) (pairs : List (Option Fr × Option Fr))
    (i : Nat) (cs : CS Fr) : SynthResult Fr :=
  match pairs with
  | [] => .ok cs
  | (y, x) :: rest =>
    let p := vdfRoundPath i
    match sloth.decode slothFn (p ++ ["sloth_decode"]) key y vdf_sloth_rounds cs with
    | .error e => .failed e cs
    | .ok (decoded, cs₁) =>
      match AllocatedNum.alloc (p ++ ["x"]) x cs₁ with
      | .error e => .failed e cs₁
      | .ok (x_alloc, cs₂) =>
        let cs₃ := constraint.equal cs₂ (p ++ ["equality"]) x_alloc decoded
        match AllocatedNum.inputize (p ++ ["vdf_result"]) decoded cs₃ with
        | .error e => .failed e cs₃
        | .ok cs₄ => vdfRoundsLoop slothFn key vdf_sloth_rounds rest (i + 1) cs₄

/-- The PoRC phase loop of `hvh_post` (hvh_post.rs lines 84-91): for each
triple in `challenged_leafs_vec.zip(commitments_vec.zip(paths_vec))` with
running index `i`, inside namespace `porc_verification_round_i`, invoke
the inclusion gadget once with that round's data, unchanged. The first
panic or error aborts the remaining rounds. -/
def porcRoundsLoop
    (triples : List (List (Option Fr) ×
      (List (Option Fr) × List (List (Option (Fr × Bool))))))
    (i : Nat) (cs : CS Fr) : SynthResult Fr :=
  match triples with
  | [] => .ok cs
  | (challenged_leafs, (commitments, paths)) :: rest =>
    match porc.porc (porcRoundPath i) challenged_leafs commitments paths cs with
    | .ok cs₁ => porcRoundsLoop rest (i + 1) cs₁
    | r => r

/-- `hvh_post` (hvh_post.rs lines 42-94), the HVH-PoSt circuit composer:
assert `vdf_xs.len() == vdf_ys.len()`; allocate the shared `vdf_key`; run
the VDF verification rounds; assert the three storage collections have
equal length; run the PoRC verification rounds. (`params` is not modelled:
it is an opaque engine parameter the composer only forwards.) -/
def hvh_post (slothFn : Fr → Fr → Nat → Fr) (cs : CS Fr)
    (vdf_key : Option Fr) (vdf_ys vdf_xs : List (Option Fr))
    (vdf_sloth_rounds : Nat)
    (challenged_leafs_vec commitments_vec : List (List (Option Fr)))
    (paths_vec : List (List (List (Option (Fr × Bool))))) :
    SynthResult Fr :=
  if vdf_xs.length = vdf_ys.length then
    match AllocatedNum.alloc ["vdf_key"] vdf_key cs with
    | .error e => .failed e cs
    | .ok (key, cs₁) =>
      match vdfRoundsLoop slothFn key vdf_sloth_rounds (vdf_ys.zip vdf_xs) 0 cs₁ with
      | .ok cs₂ =>
        if challenged_leafs_vec.length = commitments_vec.length then
          if paths_vec.length = commitments_vec.length then
            porcRoundsLoop
              (challenged_leafs_vec.zip (commitments_vec.zip paths_vec)) 0 cs₂
          else .panicked cs₂
        else .panicked cs₂
      | r => r
  else .panicked cs

/-! ### Round-label arithmetic: decimal rendering is injective -/

theorem digitChar_injOn {a b : Nat} (ha : a < 10) (hb : b < 10)
    (h : digitChar a = digitChar b) : a = b := by
  interval_cases a <;> interval_cases b <;> first | rfl | (exfalso; revert h; decide)

theorem decDigitsAux_fuel_irrel :
    ∀ f₁ f₂ n, n < f₁ → n < f₂ → decDigitsAux f₁ n = decDigitsAux f₂ n := by
  intro f₁
  induction f₁ with
  | zero => intro f₂ n h; omega
  | succ fuel ih =>
    intro f₂ n h₁ h₂
    match f₂, h₂ with
    | g + 1, _ =>
      simp only [decDigitsAux]
      by_cases hn : n < 10
      · simp [hn]
      · simp only [if_neg hn]
        rw [ih g (n / 10) (by omega) (by omega)]

theorem decDigitsAux_ne_nil {fuel n : Nat} (h : 0 < fuel) :
    decDigitsAux fuel n ≠ [] := by
  match fuel, h with
  | f + 1, _ =>
    simp only [decDigitsAux]
    by_cases hn : n < 10 <;> simp [hn]

theorem decDigits_inj : ∀ m n : Nat,
    decDigitsAux (m + 1) m = decDigitsAux (n + 1) n → m = n := by
  intro m
  induction m using Nat.strong_induction_on with
  | _ m IH =>
    intro n h
    by_cases hm : m < 10 <;> by_cases hn : n < 10
    · simp only [decDigitsAux, if_pos hm, if_pos hn, List.cons.injEq, and_true] at h
      exact digitChar_injOn hm hn h
    · exfalso
      simp only [decDigitsAux, if_pos hm, if_neg hn] at h
      have h2 := congrArg List.length h
      have h3 : decDigitsAux n (n / 10) ≠ [] := decDigitsAux_ne_nil (by omega)
      have h4 := List.length_pos.mpr h3
      simp only [List.length_cons, List.length_append, List.length_nil] at h2
      omega
    · exfalso
      simp only [decDigitsAux, if_neg hm, if_pos hn] at h
      have h2 := congrArg List.length h
      have h3 : decDigitsAux m (m / 10) ≠ [] := decDigitsAux_ne_nil (by omega)
      have h4 := List.length_pos.mpr h3
      simp only [List.length_cons, List.length_append, List.length_nil] at h2
      omega
    · simp only [decDigitsAux, if_neg hm, if_neg hn] at h
      have h2 := List.append_inj' h (by simp)
      have hA : decDigitsAux m (m / 10) = decDigitsAux n (n / 10) := h2.1
      have hc : digitChar (m % 10) = digitChar (n % 10) := by
        have := h2.2; simpa using this
      have hmod : m % 10 = n % 10 := digitChar_injOn (by omega) (by omega) hc
      have hAm : decDigitsAux m (m / 10) = decDigitsAux (m / 10 + 1) (m / 10) :=
        decDigitsAux_fuel_irrel m (m / 10 + 1) (m / 10)
          (Nat.div_lt_self (by omega) (by omega)) (by omega)
      have hAn : decDigitsAux n (n / 10) = decDigitsAux (n / 10 + 1) (n / 10) :=
        decDigitsAux_fuel_irrel n (n / 10 + 1) (n / 10)
          (Nat.div_lt_self (by omega) (by omega)) (by omega)
      have hdiv : m / 10 = n / 10 :=
        IH (m / 10) (Nat.div_lt_self (by omega) (by omega))
          (n / 10) (by rw [← hAm, ← hAn]; exact hA)
      omega

theorem natDec_inj {m n : Nat} (h : natDec m = natDec n) : m = n := by
  apply decDigits_inj
  have : (natDec m).data = (natDec n).data := by rw [h]
  exact this

theorem vdfRoundLabel_inj {i j : Nat}
    (h : vdfRoundLabel i = vdfRoundLabel j) : i = j := by
  have h2 := congrArg String.data h
  simp only [vdfRoundLabel, String.data_append] at h2
  have h3 := List.append_cancel_left h2
  exact natDec_inj (by
    have : String.mk (natDec i).data = String.mk (natDec j).data := by rw [h3]
    simpa using this)

theorem porcRoundLabel_inj {i j : Nat}
    (h : porcRoundLabel i = porcRoundLabel j) : i = j := by
  have h2 := congrArg String.data h
  simp only [porcRoundLabel, String.data_append] at h2
  have h3 := List.append_cancel_left h2
  exact natDec_inj (by
    have : String.mk (natDec i).data = String.mk (natDec j).data := by rw [h3]
    simpa using this)

theorem vdfRoundLabel_ne_porcRoundLabel (i j : Nat) :
    vdfRoundLabel i ≠ porcRoundLabel j := by
  intro h
  have h2 := congrArg String.data h
  simp only [vdfRoundLabel, porcRoundLabel, String.data_append] at h2
  simp at h2

/-! ### Presence of witness values -/

theorem allSome_map_some (l : List α) : allSome (l.map some) = some l := by
  induction l with
  | nil => rfl
  | cons a rest ih => simp [allSome, ih]

theorem allSome_eq_some :
    ∀ {L : List (Option α)} {l : List α}, allSome L = some l → L = l.map some := by
  intro L
  induction L with
  | nil => intro l h; simp only [allSome, Option.some.injEq] at h; simp [← h]
  | cons o rest ih =>
    intro l h
    match o with
    | none => simp [allSome] at h
    | some a =>
      simp only [allSome, Option.map_eq_some'] at h
      obtain ⟨l', hl', rfl⟩ := h
      simp [ih hl']

theorem allSome_paths_eq_some :
    ∀ {P : List (List (Option α))} {ps : List (List α)},
      allSome (P.map allSome) = some ps → P = ps.map (·.map some) := by
  intro P
  induction P with
  | nil => intro ps h; simp only [List.map_nil, allSome, Option.some.injEq] at h; simp [← h]
  | cons L rest ih =>
    intro ps h
    simp only [List.map_cons] at h
    match hL : allSome L with
    | none => simp [hL, allSome] at h
    | some l =>
      simp only [hL, allSome, Option.map_eq_some'] at h
      obtain ⟨ps', hps', rfl⟩ := h
      simp [allSome_eq_some hL, ih hps']

/-! ### Explicit success-state of the two phases -/

/-- The variables, inputs and constraints that the VDF phase appends when
it succeeds, given the shared key variable index `keyVar`, the fixed round
count `sr`, the key value, the variable-index offset `V0` (number of
variables already allocated when the phase's loop starts), the starting
round index `i`, and the present per-round `(y, x)` witness values. -/
def vdfChunks (slothFn : Fr → Fr → Nat → Fr) (keyVar sr : Nat) (keyVal : Fr) :
    Nat → Nat → List (Fr × Fr) →
    List (AllocVar Fr) × List (List String × Fr) × List (Constr Fr)
  | _, _, [] => ([], [], [])
  | V0, i, (y, x) :: rest =>
    let p := vdfRoundPath i
    let d := slothFn keyVal y sr
    let rec_ := vdfChunks slothFn keyVar sr keyVal (V0 + 2) (i + 1) rest
    (⟨p ++ ["sloth_decode"], d⟩ :: ⟨p ++ ["x"], x⟩ :: rec_.1,
     (p ++ ["vdf_result"], d) :: rec_.2.1,
     (List.replicate sr (.slothC (p ++ ["sloth_decode"]) keyVar sr) ++
       [.eq (p ++ ["equality"]) (V0 + 1) V0,
        .inputC (p ++ ["vdf_result"]) V0]) ++ rec_.2.2)

/-- The variables, inputs and constraints that the PoRC phase appends when
it succeeds, given the starting round index and the present per-round
(leafs, commitments, paths) witness values. -/
def porcChunks :
    Nat → List (List Fr × List Fr × List (List (Fr × Bool))) →
    List (AllocVar Fr) × List (List String × Fr) × List (Constr Fr)
  | _, [] => ([], [], [])
  | i, (ls, cm, ps) :: rest =>
    let p := porcRoundPath i
    let rec_ := porcChunks (i + 1) rest
    (ls.map (fun v => ⟨p ++ ["challenged_leaf"], v⟩) ++
      ps.flatten.map (fun e => ⟨p ++ ["path_element"], e.1⟩) ++ rec_.1,
     cm.map (fun c => (p ++ ["commitment"], c)) ++ rec_.2.1,
     (Constr.porcC p (ls.map some) (cm.map some) (ps.map (·.map some)) ::
       ps.flatten.map (fun _ => Constr.gadget (p ++ ["inclusion"]))) ++ rec_.2.2)

/-! ### The VDF loop: success-state, presence, decomposition -/

theorem vdfRoundsLoop_ok_of_present (slothFn : Fr → Fr → Nat → Fr)
    (key : AllocatedNum Fr) (sr : Nat) :
    ∀ (ws : List (Fr × Fr)) (i : Nat) (cs : CS Fr),
    vdfRoundsLoop slothFn key sr (ws.map (fun w => (some w.1, some w.2))) i cs =
      .ok { vars := cs.vars ++
              (vdfChunks slothFn key.var sr key.value cs.vars.length i ws).1,
            inputs := cs.inputs ++
              (vdfChunks slothFn key.var sr key.value cs.vars.length i ws).2.1,
            constraints := cs.constraints ++
              (vdfChunks slothFn key.var sr key.value cs.vars.length i ws).2.2 } := by
  intro ws
  induction ws with
  | nil => intro i cs; simp [vdfRoundsLoop, vdfChunks]
  | cons w rest ih =>
    intro i cs
    obtain ⟨y, x⟩ := w
    simp only [List.map_cons, vdfRoundsLoop, sloth.decode, AllocatedNum.alloc,
      constraint.equal, AllocatedNum.inputize]
    rw [ih]
    simp [vdfChunks, List.append_assoc]

theorem vdfRoundsLoop_ok_present (slothFn : Fr → Fr → Nat → Fr)
    (key : AllocatedNum Fr) (sr : Nat) :
    ∀ (pairs : List (Option Fr × Option Fr)) (i : Nat) (cs cs' : CS Fr),
    vdfRoundsLoop slothFn key sr pairs i cs = .ok cs' →
    ∃ ws : List (Fr × Fr), pairs = ws.map (fun w => (some w.1, some w.2)) := by
  intro pairs
  induction pairs with
  | nil => intro i cs cs' _; exact ⟨[], rfl⟩
  | cons pr rest ih =>
    intro i cs cs' h
    obtain ⟨y, x⟩ := pr
    match y, x with
    | none, _ => simp [vdfRoundsLoop, sloth.decode] at h
    | some yv, none => simp [vdfRoundsLoop, sloth.decode, AllocatedNum.alloc] at h
    | some yv, some xv =>
      simp only [vdfRoundsLoop, sloth.decode, AllocatedNum.alloc, constraint.equal,
        AllocatedNum.inputize] at h
      obtain ⟨ws, hws⟩ := ih _ _ _ h
      exact ⟨(yv, xv) :: ws, by simp [hws]⟩

theorem vdfRoundsLoop_append (slothFn : Fr → Fr → Nat → Fr)
    (key : AllocatedNum Fr) (sr : Nat) :
    ∀ (a b : List (Option Fr × Option Fr)) (i : Nat) (cs : CS Fr),
    vdfRoundsLoop slothFn key sr (a ++ b) i cs =
      match vdfRoundsLoop slothFn key sr a i cs with
      | .ok cs₁ => vdfRoundsLoop slothFn key sr b (i + a.length) cs₁
      | r => r := by
  intro a
  induction a with
  | nil => intro b i cs; simp [vdfRoundsLoop]
  | cons pr rest ih =>
    intro b i cs
    obtain ⟨y, x⟩ := pr
    match y, x with
    | none, _ => simp [vdfRoundsLoop, sloth.decode]
    | some yv, none => simp [vdfRoundsLoop, sloth.decode, AllocatedNum.alloc]
    | some yv, some xv =>
      simp only [List.cons_append, vdfRoundsLoop, sloth.decode, AllocatedNum.alloc,
        constraint.equal, AllocatedNum.inputize, List.append_eq]
      rw [ih]
      have hidx : i + 1 + rest.length = i + (rest.length + 1) := by omega
      simp [hidx]

/-! ### The PoRC loop: success-state, presence, decomposition -/

theorem porc_ok_of_present (p : List String) (ls cm : List Fr)
    (ps : List (List (Fr × Bool))) (h1 : ls.length = cm.length)
    (h2 : cm.length = ps.length) (cs : CS Fr) :
    porc.porc p (ls.map some) (cm.map some) (ps.map (·.map some)) cs =
      .ok { vars := cs.vars ++
              (ls.map (fun v => ⟨p ++ ["challenged_leaf"], v⟩) ++
                ps.flatten.map (fun e => ⟨p ++ ["path_element"], e.1⟩)),
            inputs := cs.inputs ++ cm.map (fun c => (p ++ ["commitment"], c)),
            constraints := cs.constraints ++
              (Constr.porcC p (ls.map some) (cm.map some) (ps.map (·.map some)) ::
                ps.flatten.map (fun _ => Constr.gadget (p ++ ["inclusion"]))) } := by
  have hall : allSome ((ps.map (·.map some)).map allSome) = some ps := by
    have : (ps.map (·.map some)).map allSome = ps.map some := by
      simp [List.map_map, Function.comp, allSome_map_some]
    rw [this, allSome_map_some]
  simp only [porc.porc, List.length_map, h1, h2, and_self, if_true,
    allSome_map_some, hall]
  simp [List.append_assoc]

theorem porcRoundsLoop_ok_of_present :
    ∀ (ts : List (List Fr × List Fr × List (List (Fr × Bool)))) (i : Nat) (cs : CS Fr),
    (∀ t ∈ ts, t.1.length = t.2.1.length ∧ t.2.1.length = t.2.2.length) →
    porcRoundsLoop
      (ts.map (fun t => (t.1.map some, (t.2.1.map some, t.2.2.map (·.map some)))))
      i cs =
      .ok { vars := cs.vars ++ (porcChunks i ts).1,
            inputs := cs.inputs ++ (porcChunks i ts).2.1,
            constraints := cs.constraints ++ (porcChunks i ts).2.2 } := by
  intro ts
  induction ts with
  | nil => intro i cs _; simp [porcRoundsLoop, porcChunks]
  | cons t rest ih =>
    intro i cs hlen
    obtain ⟨ls, cm, ps⟩ := t
    have h1 := (hlen _ (List.mem_cons_self ..)).1
    have h2 := (hlen _ (List.mem_cons_self ..)).2
    simp only [List.map_cons, porcRoundsLoop,
      porc_ok_of_present (porcRoundPath i) ls cm ps h1 h2 cs]
    rw [ih (i + 1) _ (fun t ht => hlen t (List.mem_cons_of_mem _ ht))]
    simp [porcChunks, List.append_assoc]

theorem porcRoundsLoop_ok_present :
    ∀ (triples : List (List (Option Fr) ×
        (List (Option Fr) × List (List (Option (Fr × Bool))))))
      (i : Nat) (cs cs' : CS Fr),
    porcRoundsLoop triples i cs = .ok cs' →
    ∃ ts : List (List Fr × List Fr × List (List (Fr × Bool))),
      triples =
        ts.map (fun t => (t.1.map some, (t.2.1.map some, t.2.2.map (·.map some)))) ∧
      ∀ t ∈ ts, t.1.length = t.2.1.length ∧ t.2.1.length = t.2.2.length := by
  intro triples
  induction triples with
  | nil => intro i cs cs' _; exact ⟨[], rfl, by simp⟩
  | cons tr rest ih =>
    intro i cs cs' h
    obtain ⟨L, C, P⟩ := tr
    simp only [porcRoundsLoop] at h
    match hp : porc.porc (porcRoundPath i) L C P cs with
    | .panicked s => rw [hp] at h; exact absurd h (by simp)
    | .failed e s => rw [hp] at h; exact absurd h (by simp)
    | .ok cs₁ =>
      rw [hp] at h
      unfold porc.porc at hp
      split at hp
      case isFalse => exact absurd hp (by simp)
      case isTrue hcond =>
        match hL : allSome L, hC : allSome C, hP : allSome (P.map allSome) with
        | some ls, some cm, some ps =>
          rw [hL, hC, hP] at hp
          obtain ⟨ts, hts, hlen⟩ := ih _ _ _ h
          refine ⟨(ls, cm, ps) :: ts, ?_, ?_⟩
          · simp only [List.map_cons, ← hts]
            simp [allSome_eq_some hL, allSome_eq_some hC, allSome_paths_eq_some hP]
          · intro t ht
            rcases List.mem_cons.mp ht with h' | h'
            · subst h'
              have hLl := allSome_eq_some hL
              have hCl := allSome_eq_some hC
              have hPl := allSome_paths_eq_some hP
              constructor
              · have := hcond.1
                rw [hLl, hCl] at this; simpa using this
              · have := hcond.2
                rw [hCl, hPl] at this; simpa using this
            · exact hlen t h'
        | none, _, _ => rw [hL] at hp; exact absurd hp (by simp)
        | some _, none, _ => rw [hL, hC] at hp; exact absurd hp (by simp)
        | some _, some _, none => rw [hL, hC, hP] at hp; exact absurd hp (by simp)

theorem porcRoundsLoop_append :
    ∀ (a b : List (List (Option Fr) ×
        (List (Option Fr) × List (List (Option (Fr × Bool))))))
      (i : Nat) (cs : CS Fr),
    porcRoundsLoop (a ++ b) i cs =
      match porcRoundsLoop a i cs with
      | .ok cs₁ => porcRoundsLoop b (i + a.length) cs₁
      | r => r := by
  intro a
  induction a with
  | nil => intro b i cs; simp [porcRoundsLoop]
  | cons tr rest ih =>
    intro b i cs
    obtain ⟨L, C, P⟩ := tr
    simp only [List.cons_append, porcRoundsLoop]
    match hp : porc.porc (porcRoundPath i) L C P cs with
    | .panicked s => simp
    | .failed e s => simp
    | .ok cs₁ =>
      dsimp only [List.length_cons]
      rw [List.append_eq, ih]
      have hidx : i + 1 + rest.length = i + (rest.length + 1) := by omega
      rw [hidx]

theorem porc_state_vars_mono (p : List String) (L C : List (Option Fr))
    (P : List (List (Option (Fr × Bool)))) (cs : CS Fr) :
    ∃ l, (porc.porc p L C P cs).state.vars = cs.vars ++ l := by
  unfold porc.porc
  split
  · match allSome L, allSome C, allSome (P.map allSome) with
    | some ls, some cm, some ps =>
      exact ⟨ls.map (fun v => ⟨p ++ ["challenged_leaf"], v⟩) ++
        ps.flatten.map (fun e => ⟨p ++ ["path_element"], e.1⟩), by
          simp [SynthResult.state, List.append_assoc]⟩
    | none, _, _ => exact ⟨[], by simp [SynthResult.state]⟩
    | some _, none, _ => exact ⟨[], by simp [SynthResult.state]⟩
    | some _, some _, none => exact ⟨[], by simp [SynthResult.state]⟩
  · exact ⟨[], by simp [SynthResult.state]⟩

theorem porcRoundsLoop_state_vars_mono :
    ∀ (triples : List (List (Option Fr) ×
        (List (Option Fr) × List (List (Option (Fr × Bool))))))
      (i : Nat) (cs : CS Fr),
    ∃ l, (porcRoundsLoop triples i cs).state.vars = cs.vars ++ l := by
  intro triples
  induction triples with
  | nil => intro i cs; exact ⟨[], by simp [porcRoundsLoop, SynthResult.state]⟩
  | cons tr rest ih =>
    intro i cs
    obtain ⟨L, C, P⟩ := tr
    simp only [porcRoundsLoop]
    obtain ⟨l₀, hl₀⟩ := porc_state_vars_mono (porcRoundPath i) L C P cs
    match hp : porc.porc (porcRoundPath i) L C P cs with
    | .panicked s =>
      rw [hp] at hl₀; exact ⟨l₀, hl₀⟩
    | .failed e s =>
      rw [hp] at hl₀; exact ⟨l₀, hl₀⟩
    | .ok cs₁ =>
      rw [hp] at hl₀
      obtain ⟨l₁, hl₁⟩ := ih (i + 1) cs₁
      exact ⟨l₀ ++ l₁, by
        rw [hl₁]
        simp only [SynthResult.state] at hl₀
        rw [hl₀, List.append_assoc]⟩

/-! ### Splitting a zip of maps -/

theorem zip_eq_map_split {α β γ : Type} :
    ∀ (a : List α) (b : List β) (ws : List γ) (f : γ → α) (g : γ → β),
    a.length = b.length → a.zip b = ws.map (fun w => (f w, g w)) →
    a = ws.map f ∧ b = ws.map g := by
  intro a
  induction a with
  | nil =>
    intro b ws f g hlen h
    have hb : b = [] := List.length_eq_zero.mp (by simpa using hlen.symm)
    subst hb
    simp only [List.zip_nil_right] at h
    have : ws = [] := by
      rcases ws with _ | ⟨w, ws'⟩
      · rfl
      · simp at h
    subst this; simp
  | cons x a' ihn =>
    intro b ws f g hlen h
    rcases b with _ | ⟨y, b'⟩
    · simp at hlen
    · rcases ws with _ | ⟨w, ws'⟩
      · simp at h
      · simp only [List.zip_cons_cons, List.map_cons, List.cons.injEq, Prod.mk.injEq] at h
        obtain ⟨⟨hx, hy⟩, hrest⟩ := h
        obtain ⟨ha, hb⟩ := ihn b' ws' f g (by simpa using hlen) hrest
        constructor <;> simp [hx, hy, ha, hb]

/-! ### The composer: explicit success state and success inversion -/

/-- When every witness value is present (`vdf_key = some k`, the round
pairs are `ws`, the storage rounds are `ts`) and every storage round's
parallel arrays have equal lengths, `hvh_post` succeeds and the final
constraint system is exactly: the caller's state, then the key variable,
then the VDF phase's variables/inputs/constraints, then the PoRC
phase's. -/
theorem hvh_post_ok_explicit (slothFn : Fr → Fr → Nat → Fr) (cs : CS Fr)
    (k : Fr) (ws : List (Fr × Fr))
    (ts : List (List Fr × List Fr × List (List (Fr × Bool)))) (sr : Nat)
    (hlen : ∀ t ∈ ts, t.1.length = t.2.1.length ∧ t.2.1.length = t.2.2.length) :
    hvh_post slothFn cs (some k)
      (ws.map (fun w => some w.1)) (ws.map (fun w => some w.2)) sr
      (ts.map (fun t => t.1.map some)) (ts.map (fun t => t.2.1.map some))
      (ts.map (fun t => t.2.2.map (·.map some))) =
    .ok { vars := cs.vars ++ [⟨["vdf_key"], k⟩] ++
            (vdfChunks slothFn cs.vars.length sr k (cs.vars.length + 1) 0 ws).1 ++
            (porcChunks 0 ts).1,
          inputs := cs.inputs ++
            (vdfChunks slothFn cs.vars.length sr k (cs.vars.length + 1) 0 ws).2.1 ++
            (porcChunks 0 ts).2.1,
          constraints := cs.constraints ++
            (vdfChunks slothFn cs.vars.length sr k (cs.vars.length + 1) 0 ws).2.2 ++
            (porcChunks 0 ts).2.2 } := by
  unfold hvh_post
  rw [if_pos (by simp)]
  simp only [AllocatedNum.alloc]
  rw [List.zip_map', vdfRoundsLoop_ok_of_present]
  dsimp only
  rw [if_pos (by simp), if_pos (by simp)]
  have hcvpv : (ts.map (fun t => t.2.1.map some)).zip
      (ts.map (fun t => t.2.2.map (·.map some))) =
      ts.map (fun t => (t.2.1.map some, t.2.2.map (·.map some))) := List.zip_map' ..
  rw [hcvpv, List.zip_map']
  rw [porcRoundsLoop_ok_of_present ts 0 _ hlen]
  simp [List.append_assoc]

/-- If `hvh_post` succeeds, every witness value was present and every
storage round's parallel arrays had equal lengths. -/
theorem hvh_post_ok_elim (slothFn : Fr → Fr → Nat → Fr) {cs cs' : CS Fr}
    {vdf_key : Option Fr} {vdf_ys vdf_xs : List (Option Fr)} {sr : Nat}
    {challenged_leafs_vec commitments_vec : List (List (Option Fr))}
    {paths_vec : List (List (List (Option (Fr × Bool))))}
    (h : hvh_post slothFn cs vdf_key vdf_ys vdf_xs sr
        challenged_leafs_vec commitments_vec paths_vec = .ok cs') :
    ∃ (k : Fr) (ws : List (Fr × Fr))
      (ts : List (List Fr × List Fr × List (List (Fr × Bool)))),
      vdf_key = some k ∧
      vdf_ys = ws.map (fun w => some w.1) ∧
      vdf_xs = ws.map (fun w => some w.2) ∧
      challenged_leafs_vec = ts.map (fun t => t.1.map some) ∧
      commitments_vec = ts.map (fun t => t.2.1.map some) ∧
      paths_vec = ts.map (fun t => t.2.2.map (·.map some)) ∧
      (∀ t ∈ ts, t.1.length = t.2.1.length ∧ t.2.1.length = t.2.2.length) := by
  unfold hvh_post at h
  split at h
  case isFalse => exact absurd h (by simp)
  case isTrue hxy =>
    match vdf_key with
    | none => simp [AllocatedNum.alloc] at h
    | some k =>
      simp only [AllocatedNum.alloc] at h
      match hv : vdfRoundsLoop slothFn ⟨cs.vars.length, k⟩ sr (vdf_ys.zip vdf_xs) 0
          { cs with vars := cs.vars ++ [⟨["vdf_key"], k⟩] } with
      | .panicked s => rw [hv] at h; exact absurd h (by simp)
      | .failed e s => rw [hv] at h; exact absurd h (by simp)
      | .ok cs₂ =>
        rw [hv] at h
        simp only [] at h
        obtain ⟨ws, hws⟩ := vdfRoundsLoop_ok_present _ _ _ _ _ _ _ hv
        obtain ⟨hys, hxs⟩ :=
          zip_eq_map_split vdf_ys vdf_xs ws _ _ hxy.symm hws
        split at h
        next hlc =>
          split at h
          next hpc =>
            obtain ⟨ts, hts, hlen⟩ := porcRoundsLoop_ok_present _ _ _ _ h
            have hzlen : commitments_vec.length = (commitments_vec.zip paths_vec).length := by
              rw [List.length_zip]; omega
            obtain ⟨hlv, hcvpv⟩ :=
              zip_eq_map_split challenged_leafs_vec (commitments_vec.zip paths_vec)
                ts _ _ (by omega) hts
            obtain ⟨hcv, hpv⟩ :=
              zip_eq_map_split commitments_vec paths_vec ts _ _ (by omega) hcvpv
            exact ⟨k, ws, ts, rfl, hys, hxs, hlv, hcv, hpv, hlen⟩
          next => exact absurd h (by simp)
        next => exact absurd h (by simp)

/-! ### Reading facts off the explicit phase states -/

theorem getElem?_append_mid {α : Type} (A B C' : List α) (n : Nat)
    (h : n < B.length) : (A ++ B ++ C')[A.length + n]? = B[n]? := by
  rw [List.append_assoc, List.getElem?_append_right (by omega)]
  rw [Nat.add_sub_cancel_left, List.getElem?_append_left h]

theorem vdfChunks_spec (slothFn : Fr → Fr → Nat → Fr) (keyVar sr : Nat)
    (keyVal : Fr) :
    ∀ (ws : List (Fr × Fr)) (V0 i j : Nat), j < ws.length →
    ∃ y x, ws[j]? = some (y, x) ∧
      Constr.eq (vdfRoundPath (i + j) ++ ["equality"]) (V0 + 2*j + 1) (V0 + 2*j) ∈
        (vdfChunks slothFn keyVar sr keyVal V0 i ws).2.2 ∧
      (vdfChunks slothFn keyVar sr keyVal V0 i ws).1[2*j]? =
        some ⟨vdfRoundPath (i + j) ++ ["sloth_decode"], slothFn keyVal y sr⟩ ∧
      (vdfChunks slothFn keyVar sr keyVal V0 i ws).1[2*j + 1]? =
        some ⟨vdfRoundPath (i + j) ++ ["x"], x⟩ := by
  intro ws
  induction ws with
  | nil => intro V0 i j hj; simp at hj
  | cons w rest ih =>
    intro V0 i j hj
    obtain ⟨y, x⟩ := w
    match j with
    | 0 =>
      refine ⟨y, x, by simp, ?_, by simp [vdfChunks], by simp [vdfChunks]⟩
      simp [vdfChunks]
    | j + 1 =>
      obtain ⟨y', x', h1, h2, h3, h4⟩ := ih (V0 + 2) (i + 1) j (by simpa using hj)
      have hi : i + (j + 1) = (i + 1) + j := by omega
      have hV : V0 + 2 * (j + 1) = (V0 + 2) + 2 * j := by omega
      refine ⟨y', x', by simpa using h1, ?_, ?_, ?_⟩
      · simp only [vdfChunks, List.mem_append]
        right
        rw [hi, hV]
        exact h2
      · simp only [vdfChunks]
        have h2j : 2 * (j + 1) = 2 * j + 1 + 1 := by omega
        rw [h2j]
        simp only [List.getElem?_cons_succ]
        rw [hi]
        exact h3
      · simp only [vdfChunks]
        have h2j : 2 * (j + 1) + 1 = 2 * j + 1 + 1 + 1 := by omega
        rw [h2j]
        simp only [List.getElem?_cons_succ]
        rw [hi]
        exact h4

theorem vdfChunks_inputs_spec (slothFn : Fr → Fr → Nat → Fr) (keyVar sr : Nat)
    (keyVal : Fr) :
    ∀ (ws : List (Fr × Fr)) (V0 i j : Nat), j < ws.length →
    ∃ y x, ws[j]? = some (y, x) ∧
      (vdfChunks slothFn keyVar sr keyVal V0 i ws).2.1[j]? =
        some (vdfRoundPath (i + j) ++ ["vdf_result"], slothFn keyVal y sr) := by
  intro ws
  induction ws with
  | nil => intro V0 i j hj; simp at hj
  | cons w rest ih =>
    intro V0 i j hj
    obtain ⟨y, x⟩ := w
    match j with
    | 0 => exact ⟨y, x, by simp, by simp [vdfChunks]⟩
    | j + 1 =>
      obtain ⟨y', x', h1, h2⟩ := ih (V0 + 2) (i + 1) j (by simpa using hj)
      have hi : i + (j + 1) = (i + 1) + j := by omega
      refine ⟨y', x', by simpa using h1, ?_⟩
      simp only [vdfChunks, List.getElem?_cons_succ]
      rw [hi]
      exact h2

theorem vdfChunks_inputs_length (slothFn : Fr → Fr → Nat → Fr)
    (keyVar sr : Nat) (keyVal : Fr) :
    ∀ (ws : List (Fr × Fr)) (V0 i : Nat),
    (vdfChunks slothFn keyVar sr keyVal V0 i ws).2.1.length = ws.length := by
  intro ws
  induction ws with
  | nil => intro V0 i; simp [vdfChunks]
  | cons w rest ih =>
    intro V0 i
    obtain ⟨y, x⟩ := w
    simp [vdfChunks, ih]

theorem vdfChunks_constraints_length (slothFn : Fr → Fr → Nat → Fr)
    (keyVar sr : Nat) (keyVal : Fr) :
    ∀ (ws : List (Fr × Fr)) (V0 i : Nat),
    (vdfChunks slothFn keyVar sr keyVal V0 i ws).2.2.length =
      ws.length * (sr + 2) := by
  intro ws
  induction ws with
  | nil => intro V0 i; simp [vdfChunks]
  | cons w rest ih =>
    intro V0 i
    obtain ⟨y, x⟩ := w
    simp only [vdfChunks, List.length_append, List.length_replicate,
      List.length_cons, List.length_nil, ih, List.length_map]
    ring

theorem vdfChunks_vars_length (slothFn : Fr → Fr → Nat → Fr)
    (keyVar sr : Nat) (keyVal : Fr) :
    ∀ (ws : List (Fr × Fr)) (V0 i : Nat),
    (vdfChunks slothFn keyVar sr keyVal V0 i ws).1.length = 2 * ws.length := by
  intro ws
  induction ws with
  | nil => intro V0 i; simp [vdfChunks]
  | cons w rest ih =>
    intro V0 i
    obtain ⟨y, x⟩ := w
    simp only [vdfChunks, List.length_cons, ih]
    ring

theorem vdfChunks_slothC_args (slothFn : Fr → Fr → Nat → Fr)
    (keyVar sr : Nat) (keyVal : Fr) :
    ∀ (ws : List (Fr × Fr)) (V0 i : Nat) (c : Constr Fr),
    c ∈ (vdfChunks slothFn keyVar sr keyVal V0 i ws).2.2 →
    ∀ p kv r, c = .slothC p kv r → kv = keyVar ∧ r = sr := by
  intro ws
  induction ws with
  | nil => intro V0 i c hc; simp [vdfChunks] at hc
  | cons w rest ih =>
    intro V0 i c hc p kv r hceq
    obtain ⟨y, x⟩ := w
    simp only [vdfChunks, List.mem_append] at hc
    rcases hc with (hc | hc) | hc
    · have := List.eq_of_mem_replicate hc
      rw [hceq] at this
      have h' := Constr.slothC.injEq .. ▸ this
      exact ⟨h'.2.1, h'.2.2⟩
    · rw [hceq] at hc; simp at hc
    · exact ih (V0 + 2) (i + 1) c hc p kv r hceq

theorem vdfChunks_vars_path (slothFn : Fr → Fr → Nat → Fr)
    (keyVar sr : Nat) (keyVal : Fr) :
    ∀ (ws : List (Fr × Fr)) (V0 i : Nat) (v : AllocVar Fr),
    v ∈ (vdfChunks slothFn keyVar sr keyVal V0 i ws).1 →
    ∃ r s, v.path = vdfRoundPath r ++ [s] := by
  intro ws
  induction ws with
  | nil => intro V0 i v hv; simp [vdfChunks] at hv
  | cons w rest ih =>
    intro V0 i v hv
    obtain ⟨y, x⟩ := w
    simp only [vdfChunks, List.mem_cons] at hv
    rcases hv with hv | hv | hv
    · exact ⟨i, "sloth_decode", by simp [hv]⟩
    · exact ⟨i, "x", by simp [hv]⟩
    · exact ih (V0 + 2) (i + 1) v hv

theorem vdfChunks_cpath_head (slothFn : Fr → Fr → Nat → Fr)
    (keyVar sr : Nat) (keyVal : Fr) :
    ∀ (ws : List (Fr × Fr)) (V0 i : Nat) (c : Constr Fr),
    c ∈ (vdfChunks slothFn keyVar sr keyVal V0 i ws).2.2 →
    ∃ r, i ≤ r ∧ r < i + ws.length ∧ c.cpath.head? = some (vdfRoundLabel r) := by
  intro ws
  induction ws with
  | nil => intro V0 i c hc; simp [vdfChunks] at hc
  | cons w rest ih =>
    intro V0 i c hc
    obtain ⟨y, x⟩ := w
    simp only [vdfChunks, List.mem_append] at hc
    rcases hc with (hc | hc) | hc
    · have := List.eq_of_mem_replicate hc
      exact ⟨i, le_refl i, by simp, by simp [this, Constr.cpath, vdfRoundPath]⟩
    · simp only [List.mem_cons, List.mem_singleton] at hc
      rcases hc with hc | hc | hc
      · exact ⟨i, le_refl i, by simp, by simp [hc, Constr.cpath, vdfRoundPath]⟩
      · exact ⟨i, le_refl i, by simp, by simp [hc, Constr.cpath, vdfRoundPath]⟩
      · simp at hc
    · obtain ⟨r, hr1, hr2, hr3⟩ := ih (V0 + 2) (i + 1) c hc
      exact ⟨r, by omega, by simp; omega, hr3⟩

theorem porcChunks_cpath_head :
    ∀ (ts : List (List Fr × List Fr × List (List (Fr × Bool)))) (i : Nat)
      (c : Constr Fr),
    c ∈ (porcChunks i ts).2.2 →
    ∃ r, i ≤ r ∧ r < i + ts.length ∧ c.cpath.head? = some (porcRoundLabel r) := by
  intro ts
  induction ts with
  | nil => intro i c hc; simp [porcChunks] at hc
  | cons t rest ih =>
    intro i c hc
    obtain ⟨ls, cm, ps⟩ := t
    simp only [porcChunks, List.mem_append, List.mem_cons] at hc
    rcases hc with (hc | hc) | hc
    · exact ⟨i, le_refl i, by simp, by simp [hc, Constr.cpath, porcRoundPath]⟩
    · obtain ⟨e, he, hceq⟩ := List.mem_map.mp hc
      exact ⟨i, le_refl i, by simp, by simp [← hceq, Constr.cpath, porcRoundPath]⟩
    · obtain ⟨r, hr1, hr2, hr3⟩ := ih (i + 1) c hc
      exact ⟨r, by omega, by simp; omega, hr3⟩

theorem porcChunks_no_slothC :
    ∀ (ts : List (List Fr × List Fr × List (List (Fr × Bool)))) (i : Nat)
      (c : Constr Fr),
    c ∈ (porcChunks i ts).2.2 → ∀ p kv r, c ≠ .slothC p kv r := by
  intro ts
  induction ts with
  | nil => intro i c hc; simp [porcChunks] at hc
  | cons t rest ih =>
    intro i c hc p kv r
    obtain ⟨ls, cm, ps⟩ := t
    simp only [porcChunks, List.mem_append, List.mem_cons] at hc
    rcases hc with (hc | hc) | hc
    · simp [hc]
    · obtain ⟨e, he, hceq⟩ := List.mem_map.mp hc
      simp [← hceq]
    · exact ih (i + 1) c hc p kv r

theorem porcChunks_vars_path :
    ∀ (ts : List (List Fr × List Fr × List (List (Fr × Bool)))) (i : Nat)
      (v : AllocVar Fr),
    v ∈ (porcChunks i ts).1 → ∃ r s, v.path = porcRoundPath r ++ [s] := by
  intro ts
  induction ts with
  | nil => intro i v hv; simp [porcChunks] at hv
  | cons t rest ih =>
    intro i v hv
    obtain ⟨ls, cm, ps⟩ := t
    simp only [porcChunks, List.mem_append] at hv
    rcases hv with (hv | hv) | hv
    · obtain ⟨e, he, hveq⟩ := List.mem_map.mp hv
      exact ⟨i, "challenged_leaf", by simp [← hveq]⟩
    · obtain ⟨e, he, hveq⟩ := List.mem_map.mp hv
      exact ⟨i, "path_element", by simp [← hveq]⟩
    · exact ih (i + 1) v hv

theorem porcChunks_constraints_length :
    ∀ (ts : List (List Fr × List Fr × List (List (Fr × Bool)))) (i : Nat),
    (porcChunks i ts).2.2.length =
      ((ts.map (fun t => t.2.2.map List.length)).map (fun l => 1 + l.sum)).sum := by
  intro ts
  induction ts with
  | nil => intro i; simp [porcChunks]
  | cons t rest ih =>
    intro i
    obtain ⟨ls, cm, ps⟩ := t
    simp only [porcChunks, List.length_append, List.length_cons, List.length_map,
      List.map_cons, List.sum_cons, ih]
    rw [List.length_flatten]
    simp [List.map_map, Function.comp]
    omega

theorem porcChunks_inputs_length :
    ∀ (ts : List (List Fr × List Fr × List (List (Fr × Bool)))) (i : Nat),
    (porcChunks i ts).2.1.length = (ts.map (fun t => t.2.1.length)).sum := by
  intro ts
  induction ts with
  | nil => intro i; simp [porcChunks]
  | cons t rest ih =>
    intro i
    obtain ⟨ls, cm, ps⟩ := t
    simp [porcChunks, ih]

/-- The invocation record of the inclusion gadget, if this constraint is
one. -/
def Constr.porcArgs : Constr Fr →
    Option (List String × List (Option Fr) × List (Option Fr) ×
      List (List (Option (Fr × Bool))))
  | .porcC p L C P => some (p, L, C, P)
  | _ => none

theorem vdfChunks_porcArgs_none (slothFn : Fr → Fr → Nat → Fr)
    (keyVar sr : Nat) (keyVal : Fr) :
    ∀ (ws : List (Fr × Fr)) (V0 i : Nat) (c : Constr Fr),
    c ∈ (vdfChunks slothFn keyVar sr keyVal V0 i ws).2.2 →
    Constr.porcArgs c = none := by
  intro ws
  induction ws with
  | nil => intro V0 i c hc; simp [vdfChunks] at hc
  | cons w rest ih =>
    intro V0 i c hc
    obtain ⟨y, x⟩ := w
    simp only [vdfChunks, List.mem_append] at hc
    rcases hc with (hc | hc) | hc
    · rw [List.eq_of_mem_replicate hc]; rfl
    · simp only [List.mem_cons, List.mem_singleton] at hc
      rcases hc with hc | hc | hc
      · rw [hc]; rfl
      · rw [hc]; rfl
      · simp at hc
    · exact ih (V0 + 2) (i + 1) c hc

theorem porcChunks_porcC_list :
    ∀ (ts : List (List Fr × List Fr × List (List (Fr × Bool)))) (i : Nat),
    (porcChunks i ts).2.2.filterMap Constr.porcArgs =
      (List.enumFrom i ts).map (fun jt =>
        (porcRoundPath jt.1, jt.2.1.map some, jt.2.2.1.map some,
          jt.2.2.2.map (·.map some))) := by
  intro ts
  induction ts with
  | nil => intro i; simp [porcChunks]
  | cons t rest ih =>
    intro i
    obtain ⟨ls, cm, ps⟩ := t
    simp only [porcChunks, List.filterMap_append, List.filterMap_cons]
    have hgad : (ps.flatten.map
        (fun _ => Constr.gadget (porcRoundPath i ++ ["inclusion"]))).filterMap
        (@Constr.porcArgs Fr) = [] := by
      rw [List.filterMap_eq_nil_iff]
      intro c hc
      obtain ⟨e, he, hceq⟩ := List.mem_map.mp hc
      rw [← hceq]; rfl
    simp only [Constr.porcArgs, hgad, ih, List.enumFrom_cons, List.map_cons]
    simp

/-! ### Claims -/

/-- C1: For every delay round index `i`, `hvh_post` adds an equality
constraint between the circuit variable allocated from the round's
expected pre-image (`vdf_xs[i]`) and the decoded value returned by the
decode gadget for (shared key, `vdf_ys[i]`, `vdf_sloth_rounds`), so the
claimed pre-image is constrained to equal the gadget's output in every
round. -/
theorem claim_C1 (slothFn : Fr → Fr → Nat → Fr) {cs cs' : CS Fr}
    {vdf_key : Option Fr} {vdf_ys vdf_xs : List (Option Fr)} {sr : Nat}
    {lv cv : List (List (Option Fr))}
    {pv : List (List (List (Option (Fr × Bool))))}
    (h : hvh_post slothFn cs vdf_key vdf_ys vdf_xs sr lv cv pv = .ok cs')
    {i : Nat} (hi : i < vdf_ys.length) :
    ∃ k y x, vdf_key = some k ∧
      vdf_ys[i]? = some (some y) ∧ vdf_xs[i]? = some (some x) ∧
      ∃ a b, Constr.eq (vdfRoundPath i ++ ["equality"]) a b ∈ cs'.constraints ∧
        cs'.vars[a]? = some ⟨vdfRoundPath i ++ ["x"], x⟩ ∧
        cs'.vars[b]? = some ⟨vdfRoundPath i ++ ["sloth_decode"], slothFn k y sr⟩ := by
  obtain ⟨k, ws, ts, hk, hys, hxs, hlv, hcv, hpv, hlen⟩ := hvh_post_ok_elim slothFn h
  subst hk hys hxs hlv hcv hpv
  rw [hvh_post_ok_explicit slothFn cs k ws ts sr hlen] at h
  injection h with h'
  subst h'
  have hi' : i < ws.length := by simpa using hi
  obtain ⟨y, x, hw, hmem, hdec, hx⟩ :=
    vdfChunks_spec slothFn cs.vars.length sr k ws (cs.vars.length + 1) 0 i hi'
  rw [Nat.zero_add] at hmem hdec hx
  refine ⟨k, y, x, rfl, ?_, ?_,
    cs.vars.length + 1 + (2*i + 1), cs.vars.length + 1 + 2*i, ?_, ?_, ?_⟩
  · rw [List.getElem?_map, hw]; rfl
  · rw [List.getElem?_map, hw]; rfl
  · have : cs.vars.length + 1 + (2*i + 1) = cs.vars.length + 1 + 2*i + 1 := by omega
    rw [this]
    simp only [List.mem_append]
    exact Or.inl (Or.inr hmem)
  · have hlenV : 2*i + 1 <
        (vdfChunks slothFn cs.vars.length sr k (cs.vars.length + 1) 0 ws).1.length := by
      rw [vdfChunks_vars_length]; omega
    have hA : cs.vars.length + 1 = (cs.vars ++ [(⟨["vdf_key"], k⟩ : AllocVar Fr)]).length := by
      simp
    rw [hA] at hlenV hx
    dsimp only
    rw [hA, getElem?_append_mid _ _ _ _ hlenV]
    exact hx
  · have hlenV : 2*i <
        (vdfChunks slothFn cs.vars.length sr k (cs.vars.length + 1) 0 ws).1.length := by
      rw [vdfChunks_vars_length]; omega
    have hA : cs.vars.length + 1 = (cs.vars ++ [(⟨["vdf_key"], k⟩ : AllocVar Fr)]).length := by
      simp
    rw [hA] at hlenV hdec
    dsimp only
    rw [hA, getElem?_append_mid _ _ _ _ hlenV]
    exact hdec

/-- C1 witness: a concrete one-round instance on which `claim_C1`'s
hypotheses hold and are discharged. -/
theorem claim_C1_witness :
    ∃ cs', hvh_post (fun k y r => k + y + r) (⟨[], [], []⟩ : CS Nat)
        (some 3) [some 10] [some 14] 1 [] [] [] = .ok cs' ∧
      (∃ k y x, (some 3 : Option Nat) = some k ∧
        [some 10][0]? = some (some y) ∧ [some 14][0]? = some (some x) ∧
        ∃ a b, Constr.eq (vdfRoundPath 0 ++ ["equality"]) a b ∈ cs'.constraints ∧
          cs'.vars[a]? = some ⟨vdfRoundPath 0 ++ ["x"], x⟩ ∧
          cs'.vars[b]? = some ⟨vdfRoundPath 0 ++ ["sloth_decode"],
            (fun (k y r : Nat) => k + y + r) k y 1⟩) := by
  have h0 : hvh_post (fun k y r => k + y + r) (⟨[], [], []⟩ : CS Nat)
      (some 3) [some 10] [some 14] 1 [] [] [] =
      .ok ⟨[⟨["vdf_key"], 3⟩,
            ⟨vdfRoundPath 0 ++ ["sloth_decode"], 14⟩,
            ⟨vdfRoundPath 0 ++ ["x"], 14⟩],
          [(vdfRoundPath 0 ++ ["vdf_result"], 14)],
          [.slothC (vdfRoundPath 0 ++ ["sloth_decode"]) 0 1,
           .eq (vdfRoundPath 0 ++ ["equality"]) 2 1,
           .inputC (vdfRoundPath 0 ++ ["vdf_result"]) 1]⟩ := by rfl
  exact ⟨_, h0, claim_C1 (fun k y r => k + y + r) h0 (by decide)⟩

/-- C2: For every successfully synthesized instance, every per-round
decoded delay output (one per delay round) is marked as a public input of
the circuit, and these public inputs appear in delay-round index order:
the composer's public inputs start with a block holding, for each round
`j` in order, the entry `(vdf_verification_round_j / vdf_result, decoded
value of round j)`. -/
theorem claim_C2 (slothFn : Fr → Fr → Nat → Fr) {cs cs' : CS Fr}
    {vdf_key : Option Fr} {vdf_ys vdf_xs : List (Option Fr)} {sr : Nat}
    {lv cv : List (List (Option Fr))}
    {pv : List (List (List (Option (Fr × Bool))))}
    (h : hvh_post slothFn cs vdf_key vdf_ys vdf_xs sr lv cv pv = .ok cs') :
    ∃ (k : Fr) (ws : List (Fr × Fr)) (rest : List (List String × Fr)),
      vdf_key = some k ∧
      vdf_ys = ws.map (fun w => some w.1) ∧
      cs'.inputs = cs.inputs ++
        (vdfChunks slothFn cs.vars.length sr k (cs.vars.length + 1) 0 ws).2.1 ++
        rest ∧
      (vdfChunks slothFn cs.vars.length sr k (cs.vars.length + 1) 0 ws).2.1.length =
        vdf_ys.length ∧
      (∀ j, j < ws.length → ∃ y x, ws[j]? = some (y, x) ∧
        (vdfChunks slothFn cs.vars.length sr k (cs.vars.length + 1) 0 ws).2.1[j]? =
          some (vdfRoundPath j ++ ["vdf_result"], slothFn k y sr)) := by
  obtain ⟨k, ws, ts, hk, hys, hxs, hlv, hcv, hpv, hlen⟩ := hvh_post_ok_elim slothFn h
  subst hk hys hxs hlv hcv hpv
  rw [hvh_post_ok_explicit slothFn cs k ws ts sr hlen] at h
  injection h with h'
  subst h'
  refine ⟨k, ws, (porcChunks 0 ts).2.1, rfl, rfl, rfl, ?_, ?_⟩
  · rw [vdfChunks_inputs_length]; simp
  · intro j hj
    obtain ⟨y, x, hw, hin⟩ :=
      vdfChunks_inputs_spec slothFn cs.vars.length sr k ws (cs.vars.length + 1) 0 j hj
    rw [Nat.zero_add] at hin
    exact ⟨y, x, hw, hin⟩

/-- C2 witness: `claim_C2` instantiated on a concrete two-round
instance. -/
theorem claim_C2_witness :
    ∃ cs', hvh_post (fun k y r => k + y + r) (⟨[], [], []⟩ : CS Nat)
        (some 3) [some 10, some 20] [some 14, some 24] 1 [] [] [] = .ok cs' ∧
      ∃ (k : Nat) (ws : List (Nat × Nat)) (rest : List (List String × Nat)),
        (some 3 : Option Nat) = some k ∧
        [some 10, some 20] = ws.map (fun w => some w.1) ∧
        cs'.inputs = [] ++
          (vdfChunks (fun k y r => k + y + r) 0 1 k 1 0 ws).2.1 ++ rest ∧
        (vdfChunks (fun k y r => k + y + r) 0 1 k 1 0 ws).2.1.length =
          [some 10, some 20].length ∧
        (∀ j, j < ws.length → ∃ y x, ws[j]? = some (y, x) ∧
          (vdfChunks (fun k y r => k + y + r) 0 1 k 1 0 ws).2.1[j]? =
            some (vdfRoundPath j ++ ["vdf_result"], (fun (k y r : Nat) => k + y + r) k y 1)) := by
  have h0 : hvh_post (fun k y r => k + y + r) (⟨[], [], []⟩ : CS Nat)
      (some 3) [some 10, some 20] [some 14, some 24] 1 [] [] [] =
      .ok ⟨[⟨["vdf_key"], 3⟩,
            ⟨vdfRoundPath 0 ++ ["sloth_decode"], 14⟩, ⟨vdfRoundPath 0 ++ ["x"], 14⟩,
            ⟨vdfRoundPath 1 ++ ["sloth_decode"], 24⟩, ⟨vdfRoundPath 1 ++ ["x"], 24⟩],
          [(vdfRoundPath 0 ++ ["vdf_result"], 14), (vdfRoundPath 1 ++ ["vdf_result"], 24)],
          [.slothC (vdfRoundPath 0 ++ ["sloth_decode"]) 0 1,
           .eq (vdfRoundPath 0 ++ ["equality"]) 2 1,
           .inputC (vdfRoundPath 0 ++ ["vdf_result"]) 1,
           .slothC (vdfRoundPath 1 ++ ["sloth_decode"]) 0 1,
           .eq (vdfRoundPath 1 ++ ["equality"]) 4 3,
           .inputC (vdfRoundPath 1 ++ ["vdf_result"]) 3]⟩ := by rfl
  exact ⟨_, h0, claim_C2 (fun k y r => k + y + r) h0⟩

/-- C6: The delay key is allocated exactly once as a single circuit
variable, and every delay round's decode-gadget invocation receives that
same shared key variable together with the same fixed round count
`vdf_sloth_rounds`; no round allocates its own key or uses a different
round count. -/
theorem claim_C6 (slothFn : Fr → Fr → Nat → Fr) {cs cs' : CS Fr}
    {vdf_key : Option Fr} {vdf_ys vdf_xs : List (Option Fr)} {sr : Nat}
    {lv cv : List (List (Option Fr))}
    {pv : List (List (List (Option (Fr × Bool))))}
    (h : hvh_post slothFn cs vdf_key vdf_ys vdf_xs sr lv cv pv = .ok cs') :
    ∃ k, vdf_key = some k ∧
      cs'.vars[cs.vars.length]? = some ⟨["vdf_key"], k⟩ ∧
      (cs'.vars.drop cs.vars.length).countP (fun v => v.path = ["vdf_key"]) = 1 ∧
      ∀ c ∈ cs'.constraints.drop cs.constraints.length,
        ∀ p kv r, c = Constr.slothC p kv r → kv = cs.vars.length ∧ r = sr := by
  obtain ⟨k, ws, ts, hk, hys, hxs, hlv, hcv, hpv, hlen⟩ := hvh_post_ok_elim slothFn h
  subst hk hys hxs hlv hcv hpv
  rw [hvh_post_ok_explicit slothFn cs k ws ts sr hlen] at h
  injection h with h'
  subst h'
  refine ⟨k, rfl, ?_, ?_, ?_⟩
  · dsimp only
    rw [List.append_assoc, List.append_assoc,
      List.getElem?_append_right (Nat.le_refl _), Nat.sub_self]
    simp
  · dsimp only
    rw [List.append_assoc, List.append_assoc, List.drop_left]
    rw [List.countP_append, List.countP_append]
    have h1 : List.countP (fun v => decide (v.path = ["vdf_key"]))
        [(⟨["vdf_key"], k⟩ : AllocVar Fr)] = 1 := by simp
    have h2 : List.countP (fun v => decide (v.path = ["vdf_key"]))
        (vdfChunks slothFn cs.vars.length sr k (cs.vars.length + 1) 0 ws).1 = 0 := by
      rw [List.countP_eq_zero]
      intro v hv
      obtain ⟨r, str, hpath⟩ := vdfChunks_vars_path slothFn cs.vars.length sr k ws _ 0 v hv
      simp [hpath, vdfRoundPath]
    have h3 : List.countP (fun v => decide (v.path = ["vdf_key"]))
        (porcChunks 0 ts).1 = 0 := by
      rw [List.countP_eq_zero]
      intro v hv
      obtain ⟨r, str, hpath⟩ := porcChunks_vars_path ts 0 v hv
      simp [hpath, porcRoundPath]
    omega
  · dsimp only
    rw [List.append_assoc, List.drop_left]
    intro c hc p kv r hceq
    rcases List.mem_append.mp hc with hc | hc
    · exact vdfChunks_slothC_args slothFn cs.vars.length sr k ws _ 0 c hc p kv r hceq
    · exact absurd hceq (porcChunks_no_slothC ts 0 c hc p kv r)

/-- C6 witness: `claim_C6` instantiated on a concrete instance. -/
theorem claim_C6_witness :
    ∃ cs', hvh_post (fun k y r => k + y + r) (⟨[], [], []⟩ : CS Nat)
        (some 3) [some 10] [some 14] 2 [] [] [] = .ok cs' ∧
      ∃ k, (some 3 : Option Nat) = some k ∧
        cs'.vars[0]? = some ⟨["vdf_key"], k⟩ ∧
        (cs'.vars.drop 0).countP (fun v => v.path = ["vdf_key"]) = 1 ∧
        ∀ c ∈ cs'.constraints.drop 0,
          ∀ p kv r, c = Constr.slothC p kv r → kv = 0 ∧ r = 2 := by
  have h0 : hvh_post (fun k y r => k + y + r) (⟨[], [], []⟩ : CS Nat)
      (some 3) [some 10] [some 14] 2 [] [] [] =
      .ok ⟨[⟨["vdf_key"], 3⟩,
            ⟨vdfRoundPath 0 ++ ["sloth_decode"], 15⟩,
            ⟨vdfRoundPath 0 ++ ["x"], 14⟩],
          [(vdfRoundPath 0 ++ ["vdf_result"], 15)],
          [.slothC (vdfRoundPath 0 ++ ["sloth_decode"]) 0 2,
           .slothC (vdfRoundPath 0 ++ ["sloth_decode"]) 0 2,
           .eq (vdfRoundPath 0 ++ ["equality"]) 2 1,
           .inputC (vdfRoundPath 0 ++ ["vdf_result"]) 1]⟩ := by rfl
  exact ⟨_, h0, claim_C6 (fun k y r => k + y + r) h0⟩

/-- C7: Synthesis processes all delay rounds in index order before any
storage round, then processes storage rounds in index order; for each
storage round the composer invokes the inclusion gadget exactly once,
passing that round's parameters, leafs, commitments, and paths unchanged,
without itself inspecting or constraining path contents: the new
constraints are exactly the delay-phase block followed by the
storage-phase block, and the inclusion-gadget invocation records are
exactly one per storage round, in index order, holding that round's data
as passed. -/
theorem claim_C7 (slothFn : Fr → Fr → Nat → Fr) {cs cs' : CS Fr}
    {vdf_key : Option Fr} {vdf_ys vdf_xs : List (Option Fr)} {sr : Nat}
    {lv cv : List (List (Option Fr))}
    {pv : List (List (List (Option (Fr × Bool))))}
    (h : hvh_post slothFn cs vdf_key vdf_ys vdf_xs sr lv cv pv = .ok cs') :
    ∃ (k : Fr) (ws : List (Fr × Fr))
      (ts : List (List Fr × List Fr × List (List (Fr × Bool)))),
      vdf_key = some k ∧
      vdf_ys = ws.map (fun w => some w.1) ∧
      vdf_xs = ws.map (fun w => some w.2) ∧
      lv = ts.map (fun t => t.1.map some) ∧
      cv = ts.map (fun t => t.2.1.map some) ∧
      pv = ts.map (fun t => t.2.2.map (·.map some)) ∧
      cs'.constraints = cs.constraints ++
        (vdfChunks slothFn cs.vars.length sr k (cs.vars.length + 1) 0 ws).2.2 ++
        (porcChunks 0 ts).2.2 ∧
      (cs'.constraints.drop cs.constraints.length).filterMap Constr.porcArgs =
        (List.enumFrom 0 ts).map (fun jt =>
          (porcRoundPath jt.1, jt.2.1.map some, jt.2.2.1.map some,
            jt.2.2.2.map (·.map some))) := by
  obtain ⟨k, ws, ts, hk, hys, hxs, hlv, hcv, hpv, hlen⟩ := hvh_post_ok_elim slothFn h
  subst hk hys hxs hlv hcv hpv
  rw [hvh_post_ok_explicit slothFn cs k ws ts sr hlen] at h
  injection h with h'
  subst h'
  refine ⟨k, ws, ts, rfl, rfl, rfl, rfl, rfl, rfl, by simp, ?_⟩
  dsimp only
  rw [List.append_assoc, List.drop_left, List.filterMap_append]
  have hv : ((vdfChunks slothFn cs.vars.length sr k
      (cs.vars.length + 1) 0 ws).2.2).filterMap
      Constr.porcArgs = [] := by
    rw [List.filterMap_eq_nil_iff]
    intro c hc
    exact vdfChunks_porcArgs_none slothFn cs.vars.length sr k ws _ 0 c hc
  rw [hv, porcChunks_porcC_list]
  rfl

/-- C7 witness: `claim_C7` instantiated on a concrete instance with one
delay round and one storage round. -/
theorem claim_C7_witness :
    ∃ cs', hvh_post (fun k y r => k + y + r) (⟨[], [], []⟩ : CS Nat)
        (some 3) [some 10] [some 14] 1
        [[some 5]] [[some 6]] [[[some (7, true)]]] = .ok cs' ∧
      ∃ (k : Nat) (ws : List (Nat × Nat))
        (ts : List (List Nat × List Nat × List (List (Nat × Bool)))),
        (some 3 : Option Nat) = some k ∧
        [some 10] = ws.map (fun w => some w.1) ∧
        [some 14] = ws.map (fun w => some w.2) ∧
        [[some 5]] = ts.map (fun t => t.1.map some) ∧
        [[some 6]] = ts.map (fun t => t.2.1.map some) ∧
        [[[some (7, true)]]] = ts.map (fun t => t.2.2.map (·.map some)) ∧
        cs'.constraints = [] ++
          (vdfChunks (fun k y r => k + y + r) 0 1 k 1 0 ws).2.2 ++
          (porcChunks 0 ts).2.2 ∧
        (cs'.constraints.drop 0).filterMap Constr.porcArgs =
          (List.enumFrom 0 ts).map (fun jt =>
            (porcRoundPath jt.1, jt.2.1.map some, jt.2.2.1.map some,
              jt.2.2.2.map (·.map some))) := by
  have h0 : hvh_post (fun k y r => k + y + r) (⟨[], [], []⟩ : CS Nat)
      (some 3) [some 10] [some 14] 1
      [[some 5]] [[some 6]] [[[some (7, true)]]] =
      .ok ⟨[⟨["vdf_key"], 3⟩,
            ⟨vdfRoundPath 0 ++ ["sloth_decode"], 14⟩,
            ⟨vdfRoundPath 0 ++ ["x"], 14⟩,
            ⟨porcRoundPath 0 ++ ["challenged_leaf"], 5⟩,
            ⟨porcRoundPath 0 ++ ["path_element"], 7⟩],
          [(vdfRoundPath 0 ++ ["vdf_result"], 14),
           (porcRoundPath 0 ++ ["commitment"], 6)],
          [.slothC (vdfRoundPath 0 ++ ["sloth_decode"]) 0 1,
           .eq (vdfRoundPath 0 ++ ["equality"]) 2 1,
           .inputC (vdfRoundPath 0 ++ ["vdf_result"]) 1,
           .porcC (porcRoundPath 0) [some 5] [some 6] [[some (7, true)]],
           .gadget (porcRoundPath 0 ++ ["inclusion"])]⟩ := by rfl
  exact ⟨_, h0, claim_C7 (fun k y r => k + y + r) h0⟩

/-- C8: Every round in both phases writes its constraints inside a
namespace derived from its phase and round index (delay round `i` under
`vdf_verification_round_i`, storage round `i` under
`porc_verification_round_i`): for every instance the namespace labels of
distinct rounds, and of the two phases, are pairwise distinct, and every
constraint added by a successful synthesis carries its round's label at
the head of its namespace path, so constraint labels never collide across
rounds or phases. -/
theorem claim_C8 (slothFn : Fr → Fr → Nat → Fr) {cs cs' : CS Fr}
    {vdf_key : Option Fr} {vdf_ys vdf_xs : List (Option Fr)} {sr : Nat}
    {lv cv : List (List (Option Fr))}
    {pv : List (List (List (Option (Fr × Bool))))}
    (h : hvh_post slothFn cs vdf_key vdf_ys vdf_xs sr lv cv pv = .ok cs') :
    (∀ i j, i ≠ j → vdfRoundLabel i ≠ vdfRoundLabel j) ∧
    (∀ i j, i ≠ j → porcRoundLabel i ≠ porcRoundLabel j) ∧
    (∀ i j, vdfRoundLabel i ≠ porcRoundLabel j) ∧
    (∀ c ∈ cs'.constraints.drop cs.constraints.length,
      (∃ r, r < vdf_ys.length ∧ c.cpath.head? = some (vdfRoundLabel r)) ∨
      (∃ r, r < lv.length ∧ c.cpath.head? = some (porcRoundLabel r))) := by
  obtain ⟨k, ws, ts, hk, hys, hxs, hlv, hcv, hpv, hlen⟩ := hvh_post_ok_elim slothFn h
  subst hk hys hxs hlv hcv hpv
  rw [hvh_post_ok_explicit slothFn cs k ws ts sr hlen] at h
  injection h with h'
  subst h'
  refine ⟨fun i j hij he => hij (vdfRoundLabel_inj he),
    fun i j hij he => hij (porcRoundLabel_inj he),
    fun i j => vdfRoundLabel_ne_porcRoundLabel i j, ?_⟩
  dsimp only
  rw [List.append_assoc, List.drop_left]
  intro c hc
  rcases List.mem_append.mp hc with hc | hc
  · obtain ⟨r, hr1, hr2, hr3⟩ :=
      vdfChunks_cpath_head slothFn cs.vars.length sr k ws _ 0 c hc
    exact Or.inl ⟨r, by simpa using hr2, hr3⟩
  · obtain ⟨r, hr1, hr2, hr3⟩ := porcChunks_cpath_head ts 0 c hc
    exact Or.inr ⟨r, by simpa using hr2, hr3⟩

/-- C8 witness: `claim_C8` instantiated on a concrete instance. -/
theorem claim_C8_witness :
    ∃ cs', hvh_post (fun k y r => k + y + r) (⟨[], [], []⟩ : CS Nat)
        (some 3) [some 10] [some 14] 1
        [[some 5]] [[some 6]] [[[some (7, true)]]] = .ok cs' ∧
      ((∀ i j, i ≠ j → vdfRoundLabel i ≠ vdfRoundLabel j) ∧
       (∀ i j, i ≠ j → porcRoundLabel i ≠ porcRoundLabel j) ∧
       (∀ i j, vdfRoundLabel i ≠ porcRoundLabel j) ∧
       (∀ c ∈ cs'.constraints.drop 0,
         (∃ r, r < [some (10 : Nat)].length ∧
           c.cpath.head? = some (vdfRoundLabel r)) ∨
         (∃ r, r < [[some (5 : Nat)]].length ∧
           c.cpath.head? = some (porcRoundLabel r)))) := by
  have h0 : hvh_post (fun k y r => k + y + r) (⟨[], [], []⟩ : CS Nat)
      (some 3) [some 10] [some 14] 1
      [[some 5]] [[some 6]] [[[some (7, true)]]] =
      .ok ⟨[⟨["vdf_key"], 3⟩,
            ⟨vdfRoundPath 0 ++ ["sloth_decode"], 14⟩,
            ⟨vdfRoundPath 0 ++ ["x"], 14⟩,
            ⟨porcRoundPath 0 ++ ["challenged_leaf"], 5⟩,
            ⟨porcRoundPath 0 ++ ["path_element"], 7⟩],
          [(vdfRoundPath 0 ++ ["vdf_result"], 14),
           (porcRoundPath 0 ++ ["commitment"], 6)],
          [.slothC (vdfRoundPath 0 ++ ["sloth_decode"]) 0 1,
           .eq (vdfRoundPath 0 ++ ["equality"]) 2 1,
           .inputC (vdfRoundPath 0 ++ ["vdf_result"]) 1,
           .porcC (porcRoundPath 0) [some 5] [some 6] [[some (7, true)]],
           .gadget (porcRoundPath 0 ++ ["inclusion"])]⟩ := by rfl
  exact ⟨_, h0, claim_C8 (fun k y r => k + y + r) h0⟩

/-- C9: For any two instances with identical structural shape — the same
number of delay rounds, the same `vdf_sloth_rounds`, the same number of
storage rounds with the same per-round leaf/commitment/path dimensions —
but different concrete witness values, successful synthesis produces
constraint systems with identical constraint counts and identical
public-input counts. -/
theorem claim_C9 (slothFn : Fr → Fr → Nat → Fr) {cs cs₁' cs₂' : CS Fr}
    {key₁ key₂ : Option Fr} {ys₁ xs₁ ys₂ xs₂ : List (Option Fr)} {sr : Nat}
    {lv₁ cv₁ lv₂ cv₂ : List (List (Option Fr))}
    {pv₁ pv₂ : List (List (List (Option (Fr × Bool))))}
    (h₁ : hvh_post slothFn cs key₁ ys₁ xs₁ sr lv₁ cv₁ pv₁ = .ok cs₁')
    (h₂ : hvh_post slothFn cs key₂ ys₂ xs₂ sr lv₂ cv₂ pv₂ = .ok cs₂')
    (hys : ys₁.length = ys₂.length)
    (hlv : lv₁.map List.length = lv₂.map List.length)
    (hcv : cv₁.map List.length = cv₂.map List.length)
    (hpv : pv₁.map (fun P => P.map List.length) =
      pv₂.map (fun P => P.map List.length)) :
    cs₁'.constraints.length = cs₂'.constraints.length ∧
    cs₁'.inputs.length = cs₂'.inputs.length := by
  obtain ⟨k₁, ws₁, ts₁, hk₁, hys₁, hxs₁, hlv₁, hcv₁, hpv₁, hlen₁⟩ :=
    hvh_post_ok_elim slothFn h₁
  obtain ⟨k₂, ws₂, ts₂, hk₂, hys₂, hxs₂, hlv₂, hcv₂, hpv₂, hlen₂⟩ :=
    hvh_post_ok_elim slothFn h₂
  subst hk₁ hys₁ hxs₁ hlv₁ hcv₁ hpv₁ hk₂ hys₂ hxs₂ hlv₂ hcv₂ hpv₂
  rw [hvh_post_ok_explicit slothFn cs k₁ ws₁ ts₁ sr hlen₁] at h₁
  rw [hvh_post_ok_explicit slothFn cs k₂ ws₂ ts₂ sr hlen₂] at h₂
  injection h₁ with h₁'
  injection h₂ with h₂'
  subst h₁' h₂'
  have hws : ws₁.length = ws₂.length := by simpa using hys
  have hts2 : ts₁.map (fun t => t.2.1.length) = ts₂.map (fun t => t.2.1.length) := by
    simpa only [List.map_map, Function.comp_def, List.length_map] using hcv
  have hts3 : ts₁.map (fun t => t.2.2.map List.length) =
      ts₂.map (fun t => t.2.2.map List.length) := by
    simpa only [List.map_map, Function.comp_def, List.length_map] using hpv
  constructor
  · dsimp only
    simp only [List.length_append]
    rw [vdfChunks_constraints_length, vdfChunks_constraints_length,
      porcChunks_constraints_length, porcChunks_constraints_length,
      hws, hts3]
  · dsimp only
    simp only [List.length_append]
    rw [vdfChunks_inputs_length, vdfChunks_inputs_length,
      porcChunks_inputs_length, porcChunks_inputs_length, hws, hts2]

/-- C9 witness: two concrete instances of identical shape but different
witness values, with both hypotheses of `claim_C9` discharged. -/
theorem claim_C9_witness :
    ∃ cs₁' cs₂',
      hvh_post (fun k y r => k + y + r) (⟨[], [], []⟩ : CS Nat)
        (some 3) [some 10] [some 14] 1
        [[some 5]] [[some 6]] [[[some (7, true)]]] = .ok cs₁' ∧
      hvh_post (fun k y r => k + y + r) (⟨[], [], []⟩ : CS Nat)
        (some 4) [some 20] [some 25] 1
        [[some 8]] [[some 9]] [[[some (1, false)]]] = .ok cs₂' ∧
      cs₁'.constraints.length = cs₂'.constraints.length ∧
      cs₁'.inputs.length = cs₂'.inputs.length := by
  have h₁ : hvh_post (fun k y r => k + y + r) (⟨[], [], []⟩ : CS Nat)
      (some 3) [some 10] [some 14] 1
      [[some 5]] [[some 6]] [[[some (7, true)]]] =
      .ok ⟨[⟨["vdf_key"], 3⟩,
            ⟨vdfRoundPath 0 ++ ["sloth_decode"], 14⟩,
            ⟨vdfRoundPath 0 ++ ["x"], 14⟩,
            ⟨porcRoundPath 0 ++ ["challenged_leaf"], 5⟩,
            ⟨porcRoundPath 0 ++ ["path_element"], 7⟩],
          [(vdfRoundPath 0 ++ ["vdf_result"], 14),
           (porcRoundPath 0 ++ ["commitment"], 6)],
          [.slothC (vdfRoundPath 0 ++ ["sloth_decode"]) 0 1,
           .eq (vdfRoundPath 0 ++ ["equality"]) 2 1,
           .inputC (vdfRoundPath 0 ++ ["vdf_result"]) 1,
           .porcC (porcRoundPath 0) [some 5] [some 6] [[some (7, true)]],
           .gadget (porcRoundPath 0 ++ ["inclusion"])]⟩ := by rfl
  have h₂ : hvh_post (fun k y r => k + y + r) (⟨[], [], []⟩ : CS Nat)
      (some 4) [some 20] [some 25] 1
      [[some 8]] [[some 9]] [[[some (1, false)]]] =
      .ok ⟨[⟨["vdf_key"], 4⟩,
            ⟨vdfRoundPath 0 ++ ["sloth_decode"], 25⟩,
            ⟨vdfRoundPath 0 ++ ["x"], 25⟩,
            ⟨porcRoundPath 0 ++ ["challenged_leaf"], 8⟩,
            ⟨porcRoundPath 0 ++ ["path_element"], 1⟩],
          [(vdfRoundPath 0 ++ ["vdf_result"], 25),
           (porcRoundPath 0 ++ ["commitment"], 9)],
          [.slothC (vdfRoundPath 0 ++ ["sloth_decode"]) 0 1,
           .eq (vdfRoundPath 0 ++ ["equality"]) 2 1,
           .inputC (vdfRoundPath 0 ++ ["vdf_result"]) 1,
           .porcC (porcRoundPath 0) [some 8] [some 9] [[some (1, false)]],
           .gadget (porcRoundPath 0 ++ ["inclusion"])]⟩ := by rfl
  exact ⟨_, _, h₁, h₂,
    claim_C9 (fun k y r => k + y + r) h₁ h₂ rfl rfl rfl rfl⟩

/-- C10: Even when there are zero delay rounds (`vdf_ys` and `vdf_xs` both
empty), `hvh_post` still allocates the `vdf_key` as a circuit variable
before any round processing (the key variable sits at the next allocation
index in the final state whatever the storage data is); consequently, in
concrete synthesis a `vdf_key` of `None` causes a missing-assignment
failure even though no round consumes the key. -/
theorem claim_C10 (slothFn : Fr → Fr → Nat → Fr) (cs : CS Fr) (sr : Nat)
    (lv cv : List (List (Option Fr)))
    (pv : List (List (List (Option (Fr × Bool))))) :
    hvh_post slothFn cs none [] [] sr lv cv pv =
      .failed .AssignmentMissing cs ∧
    ∀ k : Fr,
      (hvh_post slothFn cs (some k) [] [] sr lv cv pv).state.vars[cs.vars.length]? =
        some ⟨["vdf_key"], k⟩ := by
  constructor
  · rfl
  · intro k
    unfold hvh_post
    rw [if_pos rfl]
    simp only [AllocatedNum.alloc]
    have hloop : vdfRoundsLoop slothFn ⟨cs.vars.length, k⟩ sr
        (([] : List (Option Fr)).zip ([] : List (Option Fr))) 0
        { cs with vars := cs.vars ++ [⟨["vdf_key"], k⟩] } =
        .ok { cs with vars := cs.vars ++ [⟨["vdf_key"], k⟩] } := rfl
    rw [hloop]
    dsimp only
    split
    · split
      · obtain ⟨l, hl⟩ := porcRoundsLoop_state_vars_mono
          (lv.zip (cv.zip pv)) 0 { cs with vars := cs.vars ++ [⟨["vdf_key"], k⟩] }
        rw [hl]
        dsimp only
        rw [List.append_assoc, List.getElem?_append_right (Nat.le_refl _), Nat.sub_self]
        simp
      · dsimp only [SynthResult.state]
        rw [List.getElem?_append_right (Nat.le_refl _), Nat.sub_self]
        simp
    · dsimp only [SynthResult.state]
      rw [List.getElem?_append_right (Nat.le_refl _), Nat.sub_self]
      simp

/-- C3 counterexample: an instance whose three top-level storage
collections disagree in length (one challenged-leaf round, zero commitment
rounds, zero path rounds) is rejected by panic, but only after the delay
key has already been allocated: at the moment the violation is detected
the constraint system already holds one circuit variable, refuting
"no circuit variables are allocated and no constraints are added to the
constraint system before the violation is detected". -/
theorem claim_C3_counterexample :
    hvh_post (fun (k y _ : Nat) => k + y) (⟨[], [], []⟩ : CS Nat)
      (some 7) [] [] 1 [[]] [] [] =
      .panicked ⟨[⟨["vdf_key"], 7⟩], [], []⟩ ∧
    (⟨[⟨["vdf_key"], 7⟩], [], []⟩ : CS Nat).vars.length ≠ 0 :=
  ⟨rfl, by decide⟩

/-- C3 (amended): a `len(vdf_xs) ≠ len(vdf_ys)` violation is rejected by
the first assertion before any variable is allocated or constraint added
(the constraint system is returned untouched); a violation of top-level
storage-collection length equality is rejected by panic before any
storage round is processed, but only after the delay phase has run: the
key and all delay-round variables, inputs and constraints are already in
the constraint system at the moment of the violation, and nothing of the
storage phase is. -/
theorem claim_C3_amended (slothFn : Fr → Fr → Nat → Fr) (cs : CS Fr)
    (vdf_key : Option Fr) (vdf_ys vdf_xs : List (Option Fr)) (sr : Nat)
    (lv cv : List (List (Option Fr)))
    (pv : List (List (List (Option (Fr × Bool))))) :
    (vdf_xs.length ≠ vdf_ys.length →
      hvh_post slothFn cs vdf_key vdf_ys vdf_xs sr lv cv pv = .panicked cs) ∧
    (∀ (k : Fr) (ws : List (Fr × Fr)),
      vdf_key = some k →
      vdf_ys = ws.map (fun w => some w.1) →
      vdf_xs = ws.map (fun w => some w.2) →
      ¬(lv.length = cv.length ∧ pv.length = cv.length) →
      hvh_post slothFn cs vdf_key vdf_ys vdf_xs sr lv cv pv =
        .panicked
          { vars := cs.vars ++ [⟨["vdf_key"], k⟩] ++
              (vdfChunks slothFn cs.vars.length sr k (cs.vars.length + 1) 0 ws).1,
            inputs := cs.inputs ++
              (vdfChunks slothFn cs.vars.length sr k (cs.vars.length + 1) 0 ws).2.1,
            constraints := cs.constraints ++
              (vdfChunks slothFn cs.vars.length sr k (cs.vars.length + 1) 0 ws).2.2 }) := by
  constructor
  · intro hne
    unfold hvh_post
    rw [if_neg hne]
  · intro k ws hk hys hxs hne
    subst hk hys hxs
    unfold hvh_post
    rw [if_pos (by simp)]
    simp only [AllocatedNum.alloc]
    rw [List.zip_map', vdfRoundsLoop_ok_of_present]
    dsimp only
    by_cases h1 : lv.length = cv.length
    · rw [if_pos h1]
      have h2 : pv.length ≠ cv.length := fun h2 => hne ⟨h1, h2⟩
      rw [if_neg h2]
      simp [List.append_assoc]
    · rw [if_neg h1]
      simp [List.append_assoc]

/-- C3 witness: `claim_C3_amended` instantiated at two concrete inputs,
one per violated invariant. -/
theorem claim_C3_witness :
    (hvh_post (fun (k y _ : Nat) => k + y) (⟨[], [], []⟩ : CS Nat)
        (some 7) [some 1] [] 1 [] [] [] = .panicked ⟨[], [], []⟩) ∧
    (hvh_post (fun (k y _ : Nat) => k + y) (⟨[], [], []⟩ : CS Nat)
        (some 7) [] [] 1 [[]] [] [] = .panicked ⟨[⟨["vdf_key"], 7⟩], [], []⟩) := by
  constructor
  · exact (claim_C3_amended (fun (k y _ : Nat) => k + y) ⟨[], [], []⟩
      (some 7) [some 1] [] 1 [] [] []).1 (by decide)
  · exact (claim_C3_amended (fun (k y _ : Nat) => k + y) ⟨[], [], []⟩
      (some 7) [] [] 1 [[]] [] []).2 7 [] rfl rfl rfl (by decide)

/-- C5: If an allocation fails during synthesis — here the expected
pre-image `vdf_xs[i]` of the first deficient round being `None`, the
missing-assignment case that hvh_post.rs lines 70-72 surface — `hvh_post`
returns that first `AssignmentMissing` error immediately and processes no
further rounds; every constraint added by earlier rounds, and the decode
work the failing round had already done, remain in the caller's
constraint system (no rollback). -/
theorem claim_C5 (slothFn : Fr → Fr → Nat → Fr) (cs : CS Fr) (k : Fr)
    (ws : List (Fr × Fr)) (y : Fr) (ys' xs' : List (Option Fr)) (sr : Nat)
    (lv cv : List (List (Option Fr)))
    (pv : List (List (List (Option (Fr × Bool)))))
    (hlen : ys'.length = xs'.length) :
    hvh_post slothFn cs (some k)
      (ws.map (fun w => some w.1) ++ some y :: ys')
      (ws.map (fun w => some w.2) ++ none :: xs') sr lv cv pv =
    .failed .AssignmentMissing
      { vars := cs.vars ++ [⟨["vdf_key"], k⟩] ++
          (vdfChunks slothFn cs.vars.length sr k (cs.vars.length + 1) 0 ws).1 ++
          [⟨vdfRoundPath ws.length ++ ["sloth_decode"], slothFn k y sr⟩],
        inputs := cs.inputs ++
          (vdfChunks slothFn cs.vars.length sr k (cs.vars.length + 1) 0 ws).2.1,
        constraints := cs.constraints ++
          (vdfChunks slothFn cs.vars.length sr k (cs.vars.length + 1) 0 ws).2.2 ++
          List.replicate sr
            (.slothC (vdfRoundPath ws.length ++ ["sloth_decode"]) cs.vars.length sr) } := by
  unfold hvh_post
  rw [if_pos (by simp [hlen])]
  simp only [AllocatedNum.alloc]
  rw [List.zip_append (by simp), List.zip_map', List.zip_cons_cons]
  rw [vdfRoundsLoop_append, vdfRoundsLoop_ok_of_present]
  dsimp only
  simp only [vdfRoundsLoop, sloth.decode, AllocatedNum.alloc]
  simp [List.append_assoc]

/-- C5 witness: `claim_C5` instantiated on a concrete two-round instance
whose second round's expected pre-image is absent. -/
theorem claim_C5_witness :
    ([] : List (Option Nat)).length = ([] : List (Option Nat)).length ∧
    hvh_post (fun k y r => k + y + r) (⟨[], [], []⟩ : CS Nat)
      (some 3) [some 10, some 20] [some 14, none] 1 [] [] [] =
    .failed .AssignmentMissing
      ⟨[⟨["vdf_key"], 3⟩,
        ⟨vdfRoundPath 0 ++ ["sloth_decode"], 14⟩,
        ⟨vdfRoundPath 0 ++ ["x"], 14⟩,
        ⟨vdfRoundPath 1 ++ ["sloth_decode"], 24⟩],
       [(vdfRoundPath 0 ++ ["vdf_result"], 14)],
       [.slothC (vdfRoundPath 0 ++ ["sloth_decode"]) 0 1,
        .eq (vdfRoundPath 0 ++ ["equality"]) 2 1,
        .inputC (vdfRoundPath 0 ++ ["vdf_result"]) 1,
        .slothC (vdfRoundPath 1 ++ ["sloth_decode"]) 0 1]⟩ :=
  ⟨rfl, claim_C5 (fun k y r => k + y + r) ⟨[], [], []⟩ 3 [(10, 14)] 20 [] [] 1
    [] [] [] rfl⟩

theorem porc_panicked_of_mismatch (p : List String)
    (L C : List (Option Fr)) (P : List (List (Option (Fr × Bool))))
    (cs : CS Fr) (h : ¬(L.length = C.length ∧ C.length = P.length)) :
    porc.porc p L C P cs = .panicked cs := by
  simp [porc.porc, h]

/-- C4: For every storage round index `i`, a mismatch among that round's
inner lengths — `len(challenged_leafs_vec[i])`, `len(commitments_vec[i])`,
`len(paths_vec[i])` not all equal — is a fatal contract violation detected
loudly and immediately, assertion-style, by the inclusion gadget at the
entry of that round: synthesis of such an instance can never return `Ok`,
and when the mismatched round is actually reached (everything before it
succeeds), the result is a panic at that round's gadget invocation, with
nothing of that round or later rounds added to the constraint system. -/
theorem claim_C4 (slothFn : Fr → Fr → Nat → Fr) :
    (∀ (cs cs' : CS Fr) (vdf_key : Option Fr)
      (vdf_ys vdf_xs : List (Option Fr)) (sr : Nat)
      (lv cv : List (List (Option Fr)))
      (pv : List (List (List (Option (Fr × Bool))))) (i : Nat)
      (L C : List (Option Fr)) (P : List (List (Option (Fr × Bool)))),
      lv[i]? = some L → cv[i]? = some C → pv[i]? = some P →
      ¬(L.length = C.length ∧ C.length = P.length) →
      hvh_post slothFn cs vdf_key vdf_ys vdf_xs sr lv cv pv ≠ .ok cs') ∧
    (∀ (cs : CS Fr) (k : Fr) (ws : List (Fr × Fr))
      (ts : List (List Fr × List Fr × List (List (Fr × Bool))))
      (L C : List (Option Fr)) (P : List (List (Option (Fr × Bool))))
      (lv' cv' : List (List (Option Fr)))
      (pv' : List (List (List (Option (Fr × Bool))))) (sr : Nat),
      (∀ t ∈ ts, t.1.length = t.2.1.length ∧ t.2.1.length = t.2.2.length) →
      ¬(L.length = C.length ∧ C.length = P.length) →
      lv'.length = cv'.length → pv'.length = cv'.length →
      hvh_post slothFn cs (some k)
        (ws.map (fun w => some w.1)) (ws.map (fun w => some w.2)) sr
        (ts.map (fun t => t.1.map some) ++ L :: lv')
        (ts.map (fun t => t.2.1.map some) ++ C :: cv')
        (ts.map (fun t => t.2.2.map (·.map some)) ++ P :: pv') =
      .panicked
        { vars := cs.vars ++ [⟨["vdf_key"], k⟩] ++
            (vdfChunks slothFn cs.vars.length sr k (cs.vars.length + 1) 0 ws).1 ++
            (porcChunks 0 ts).1,
          inputs := cs.inputs ++
            (vdfChunks slothFn cs.vars.length sr k (cs.vars.length + 1) 0 ws).2.1 ++
            (porcChunks 0 ts).2.1,
          constraints := cs.constraints ++
            (vdfChunks slothFn cs.vars.length sr k (cs.vars.length + 1) 0 ws).2.2 ++
            (porcChunks 0 ts).2.2 }) := by
  constructor
  · intro cs cs' vdf_key vdf_ys vdf_xs sr lv cv pv i L C P hL hC hP hmis h
    obtain ⟨k, ws, ts, hk, hys, hxs, hlv, hcv, hpv, hlen⟩ := hvh_post_ok_elim slothFn h
    subst hlv hcv hpv
    rw [List.getElem?_map] at hL hC hP
    match hts : ts[i]? with
    | none => rw [hts] at hL; exact absurd hL (by simp)
    | some t =>
      rw [hts] at hL hC hP
      have htmem : t ∈ ts := by
        obtain ⟨hlt, hget⟩ := List.getElem?_eq_some_iff.mp hts
        exact hget ▸ List.getElem_mem hlt
      obtain ⟨h1, h2⟩ := hlen t htmem
      apply hmis
      have hLt : L = t.1.map some := by simpa using hL.symm
      have hCt : C = t.2.1.map some := by simpa using hC.symm
      have hPt : P = t.2.2.map (·.map some) := by simpa using hP.symm
      subst hLt hCt hPt
      simp [h1, h2]
  · intro cs k ws ts L C P lv' cv' pv' sr hlen hmis hl1 hl2
    unfold hvh_post
    rw [if_pos (by simp)]
    simp only [AllocatedNum.alloc]
    rw [List.zip_map', vdfRoundsLoop_ok_of_present]
    dsimp only
    rw [if_pos (by simp; omega), if_pos (by simp; omega)]
    rw [List.zip_append (by simp), List.zip_cons_cons,
      List.zip_map', List.zip_append (by simp [List.length_zip]),
      List.zip_cons_cons, List.zip_map']
    rw [porcRoundsLoop_append, porcRoundsLoop_ok_of_present ts 0 _ hlen]
    dsimp only
    simp only [porcRoundsLoop]
    rw [porc_panicked_of_mismatch _ _ _ _ _ hmis]
    simp [List.append_assoc]

/-- C4 witness: both parts of `claim_C4` instantiated at a concrete
instance whose single storage round has one challenged leaf but zero
commitments and zero paths. -/
theorem claim_C4_witness :
    (hvh_post (fun (k y _ : Nat) => k + y) (⟨[], [], []⟩ : CS Nat)
      (some 5) [] [] 1 [[some 1]] [[]] [[]] ≠ .ok ⟨[], [], []⟩) ∧
    (hvh_post (fun (k y _ : Nat) => k + y) (⟨[], [], []⟩ : CS Nat)
      (some 5) [] [] 1 [[some 1]] [[]] [[]] =
      .panicked ⟨[⟨["vdf_key"], 5⟩], [], []⟩) := by
  constructor
  · exact (claim_C4 (fun (k y _ : Nat) => k + y)).1 ⟨[], [], []⟩ ⟨[], [], []⟩
      (some 5) [] [] 1 [[some 1]] [[]] [[]] 0 [some 1] [] []
      (by decide) (by decide) (by decide) (by decide)
  · exact (claim_C4 (fun (k y _ : Nat) => k + y)).2 ⟨[], [], []⟩ 5 [] []
      [some 1] [] [] [] [] [] 1 (by simp) (by decide) rfl rfl

end HvhPostModel
